import Mathlib

/-!
Shallow embedding of the BadgerDB buffer manager from
`src/BufMgr/src/buffer.cpp` (class `BufMgr`): frame pool, frame
descriptor table, clock replacement (`allocBuf`), `readPage`,
`unPinPage`, `flushFile`, `allocPage`, `disposePage`.

Machine integers of the C++ (`std::uint32_t`, `PageId`, `FrameId`) are
modelled as `Nat`; the quantities involved (pin counts, frame ids below
`numBufs`, page ids) never approach `2^32` on the states considered, and
the only wrap-sensitive operation, `clockHand = (clockHand + 1) % numBufs`,
is taken over verbatim.  C++ exceptions are modelled by an `Except`
result paired with the state at the moment of the throw, since mutations
made before a throw persist.  File and hash-table collaborators are
external to the repository; they are modelled from their documented
interfaces, and every successful file I/O call is recorded in an event
log so that "issues no read" and write-back ordering are observable.
-/

abbrev FileId := Nat
abbrev PageId := Nat

/-- A disk page: its page number together with (opaque) content,
mirroring `badgerdb::Page` where `page_number()` is stored in the
page header. -/
structure Page where
  page_number : PageId
  data : Nat
deriving DecidableEq

instance : Inhabited Page := ⟨⟨0, 0⟩⟩

/-- Successful I/O effects performed through the File collaborator,
in the order they are issued. -/
inductive IOEvent where
  | read (f : FileId) (p : PageId)
  | write (f : FileId) (p : PageId) (pg : Page)
  | allocate (f : FileId) (p : PageId)
  | delete (f : FileId) (p : PageId)
deriving DecidableEq

/-- The exceptions thrown by `buffer.cpp` and its collaborators.
`outOfFuel` is an artefact of modelling the unbounded `while (true)`
loop of `allocBuf` with explicit fuel; it is proved unreachable for the
fuel actually used. -/
inductive BufError where
  | bufferExceeded
  | pageNotPinned (name : FileId) (p : PageId) (frame : Nat)
  | pagePinned (name : FileId) (p : PageId) (frame : Nat)
  | badBuffer (frame : Nat) (dirty valid refbit : Bool)
  | hashNotFound
  | hashAlreadyPresent
  | invalidPage (f : FileId) (p : PageId)
  | outOfFuel
deriving DecidableEq

/-- Modelled from the spec: the on-disk file abstraction (§6), an
external collaborator.  A flat store of pages keyed by (file, pageId);
`filename()` is the `FileId` itself. -/
structure FileSys where
  contents : List ((FileId × PageId) × Page)
deriving DecidableEq

/-- First page stored under key (f, p), if any. -/
def pageAssoc : List ((FileId × PageId) × Page) → FileId → PageId → Option Page
  | [], _, _ => none
  | e :: tl, f, p => if e.1 = (f, p) then some e.2 else pageAssoc tl f p

namespace FileSys

/-- Modelled from the spec: `readPage(pageId) → content`, fails (returns
`none`) if the page does not exist. -/
def readPage (fs : FileSys) (f : FileId) (p : PageId) : Option Page :=
  pageAssoc fs.contents f p

/-- Modelled from the spec: `writePage(content)`, a synchronous persist
at the content's own page id. -/
def writePage (fs : FileSys) (f : FileId) (pg : Page) : FileSys :=
  ⟨((f, pg.page_number), pg) ::
    fs.contents.filter (fun e => !(e.1 == (f, pg.page_number)))⟩

/-- Modelled from the spec: `allocatePage() → (new pageId, initial
content)`; the fresh id is one past the largest id currently present. -/
def allocatePage (fs : FileSys) (f : FileId) : PageId × FileSys :=
  let newId := fs.contents.foldr
    (fun e m => if e.1.1 == f then max m (e.1.2 + 1) else m) 1
  (newId, ⟨((f, newId), ⟨newId, 0⟩) :: fs.contents⟩)

/-- Modelled from the spec: `deletePage(pageId)`, marks the slot
reusable. -/
def deletePage (fs : FileSys) (f : FileId) (p : PageId) : FileSys :=
  ⟨fs.contents.filter (fun e => !(e.1 == (f, p)))⟩

end FileSys

/-- Modelled from the spec: Frame Index `lookup` (§6), a partial map
(file, pageId) → frameId; returns the first matching entry. -/
def hashLookup : List ((FileId × PageId) × Nat) → FileId → PageId → Option Nat
  | [], _, _ => none
  | e :: tl, f, p => if e.1 = (f, p) then some e.2 else hashLookup tl f p

/-- Modelled from the spec: Frame Index `remove` with the key known to
be present: drops every entry with that key. -/
def hashErase : List ((FileId × PageId) × Nat) → FileId → PageId →
    List ((FileId × PageId) × Nat)
  | [], _, _ => []
  | e :: tl, f, p =>
    if e.1 = (f, p) then hashErase tl f p else e :: hashErase tl f p

/-- A frame descriptor (`badgerdb::BufDesc`): owning file (`none` for
the C++ `NULL`), page number, pin count, dirty / valid / reference
bits. -/
structure BufDesc where
  frameNo : Nat
  file : Option FileId
  pageNo : PageId
  pinCnt : Nat
  dirty : Bool
  valid : Bool
  refbit : Bool
deriving DecidableEq

instance : Inhabited BufDesc :=
  ⟨⟨0, none, 0, 0, false, false, false⟩⟩

namespace BufDesc

/-- Modelled from the spec: `Set(file, pageId)` of `BufDesc`
(declared in `buffer.h`, not under `src/`) — marks the frame valid,
`pinCnt = 1`, `refbit = true`, `dirty = false`, records the owner
(§4.1). -/
def descSet (d : BufDesc) (f : FileId) (p : PageId) : BufDesc :=
  { d with file := some f, pageNo := p, pinCnt := 1,
           dirty := false, valid := true, refbit := true }

/-- Modelled from the spec: `Clear()` of `BufDesc` (declared in
`buffer.h`, not under `src/`) — resets the descriptor to the invalid
state: no owner, `pinCnt = 0`, all flags false (§4.1). -/
def descClear (d : BufDesc) : BufDesc :=
  { d with file := none, pageNo := 0, pinCnt := 0,
           dirty := false, valid := false, refbit := false }

end BufDesc

/-- The whole mutable state of one `BufMgr` together with the file
system it talks to and the I/O event log. -/
structure BufState where
  numBufs : Nat
  bufDescTable : List BufDesc
  bufPool : List Page
  hashTable : List ((FileId × PageId) × Nat)
  clockHand : Nat
  fs : FileSys
  log : List IOEvent
deriving DecidableEq

namespace BufState

/-- `bufDescTable[i]`. -/
def desc (st : BufState) (i : Nat) : BufDesc :=
  st.bufDescTable.getD i default

/-- `bufDescTable[i] = d`. -/
def setDesc (st : BufState) (i : Nat) (d : BufDesc) : BufState :=
  { st with bufDescTable := st.bufDescTable.set i d }

/-- `bufPool[i]`. -/
def pool (st : BufState) (i : Nat) : Page :=
  st.bufPool.getD i default

/-- `bufPool[i] = pg`. -/
def setPool (st : BufState) (i : Nat) (pg : Page) : BufState :=
  { st with bufPool := st.bufPool.set i pg }

/-- `bufDescTable[i].file->writePage(bufPool[i])`: persist frame `i`'s
content through file `f` and log the write. -/
def writeFrame (st : BufState) (f : FileId) (i : Nat) : BufState :=
  { st with fs := st.fs.writePage f (st.pool i),
            log := st.log ++ [.write f (st.pool i).page_number (st.pool i)] }

end BufState

namespace BufMgr

/-- `BufMgr::advanceClock`: `clockHand = (clockHand + 1) % numBufs`. -/
def advanceClock (st : BufState) : BufState :=
  { st with clockHand := (st.clockHand + 1) % st.numBufs }

/-- Result of one bounded sweep of the clock hand inside
`BufMgr::allocBuf`. -/
inductive SweepResult where
  | selected (frame : Nat) (st : BufState)
  | exhausted (st : BufState)
deriving DecidableEq

/-- The inner `for` loop of `BufMgr::allocBuf`, `n` steps remaining.
Each step advances the clock hand and examines the frame there:
invalid → selected; `refbit` → clear it and continue; pinned →
continue; else write back if dirty (dirty flag itself not cleared
here), then, when the descriptor has a file, remove the hash entry and
`Clear()` the descriptor — a `HashNotFoundException` from `remove` is
caught and swallowed, in which case `Clear()` is skipped — and select
the frame. -/
def allocSweep : Nat → BufState → SweepResult
  | 0, st => .exhausted st
  | n + 1, st =>
    let st1 := advanceClock st
    let h := st1.clockHand
    let d := st1.desc h
    if !d.valid then .selected h st1
    else if d.refbit then allocSweep n (st1.setDesc h { d with refbit := false })
    else if d.pinCnt > 0 then allocSweep n st1
    else
      let st2 := if d.dirty then
        (match d.file with
         | some f => st1.writeFrame f h
         | none => st1)
        else st1
      let st3 := match d.file with
        | none => st2
        | some f =>
          match hashLookup st2.hashTable f d.pageNo with
          | none => st2
          | some _ =>
            (BufState.setDesc
              { st2 with hashTable := hashErase st2.hashTable f d.pageNo }
              h (d.descClear))
      .selected h st3

/-- `true` iff some frame has `pinCnt = 0`: the (misnamed) `allPinned`
flag computed after an exhausted sweep in `BufMgr::allocBuf`. -/
def someUnpinned (st : BufState) : Bool :=
  st.bufDescTable.any (fun d => d.pinCnt == 0)

/-- The `while (true)` loop of `BufMgr::allocBuf`, with explicit fuel:
run one full sweep of `numBufs` steps; on exhaustion throw
`BufferExceededException` when every frame is pinned, otherwise sweep
again. -/
def allocBufLoop : Nat → BufState → Except BufError Nat × BufState
  | 0, st => (.error .outOfFuel, st)
  | fuel + 1, st =>
    match allocSweep st.numBufs st with
    | .selected f st1 => (.ok f, st1)
    | .exhausted st1 =>
      if someUnpinned st1 then allocBufLoop fuel st1
      else (.error .bufferExceeded, st1)

/-- `BufMgr::allocBuf`.  Two rounds of fuel suffice: a failed first
sweep leaves every reference bit cleared, so the second sweep selects
any unpinned frame it reaches (proved below as `allocBufLoop` never
returning `outOfFuel` on well-formed states). -/
def allocBuf (st : BufState) : Except BufError Nat × BufState :=
  allocBufLoop 2 st

/-- `BufMgr::readPage(file, pageNo, page)`.  On a hash hit the frame's
`pinCnt` is incremented and (after the `try`/`catch`) its `refbit` set;
on a miss the code calls `file->readPage(pageNo)` FIRST (throwing
`InvalidPageException` with no state change if the page does not
exist), then `allocBuf`, then stores the content, inserts the hash
entry and applies `Set()` (which already sets `refbit`).  The returned
frame id stands for the returned `Page*`. -/
def readPage (f : FileId) (p : PageId) (st : BufState) :
    Except BufError Nat × BufState :=
  match hashLookup st.hashTable f p with
  | some id =>
    (.ok id,
      st.setDesc id { st.desc id with pinCnt := (st.desc id).pinCnt + 1,
                                      refbit := true })
  | none =>
    match st.fs.readPage f p with
    | none => (.error (.invalidPage f p), st)
    | some pg =>
      let st1 := { st with log := st.log ++ [.read f p] }
      match allocBuf st1 with
      | (.error e, st2) => (.error e, st2)
      | (.ok id, st2) =>
        let st3 := st2.setPool id pg
        if (hashLookup st3.hashTable f p).isSome then
          (.error .hashAlreadyPresent, st3)
        else
          let st4 := { st3 with hashTable := ((f, p), id) :: st3.hashTable }
          (.ok id, st4.setDesc id ((st4.desc id).descSet f p))

/-- `BufMgr::unPinPage(file, pageNo, dirty)`: hash miss → no-op;
`pinCnt = 0` → `PageNotPinnedException(filename, pageNo, frame)`;
otherwise decrement `pinCnt` and, when the dirty argument is true, set
the dirty bit (never cleared here). -/
def unPinPage (f : FileId) (p : PageId) (dirty : Bool) (st : BufState) :
    Except BufError Unit × BufState :=
  match hashLookup st.hashTable f p with
  | none => (.ok (), st)
  | some id =>
    if (st.desc id).pinCnt = 0 then
      (.error (.pageNotPinned f p id), st)
    else
      let st1 := st.setDesc id { st.desc id with pinCnt := (st.desc id).pinCnt - 1 }
      if dirty then
        (.ok (), st1.setDesc id { st1.desc id with dirty := true })
      else (.ok (), st1)

/-- The `for` loop of `BufMgr::flushFile`, over the remaining frame
ids `ks` (in the call, `0, 1, …, numBufs − 1`).  A frame owned by the
file: pinned → `PagePinnedException`, aborting the scan; invalid →
`BadBufferException`; otherwise write back if dirty and clear the
dirty bit, remove the hash entry (`remove` here is NOT wrapped in a
`try`, so a missing entry would propagate `HashNotFoundException`),
and `Clear()` the descriptor. -/
def flushAux (f : FileId) : List Nat → BufState → Except BufError Unit × BufState
  | [], st => (.ok (), st)
  | k :: ks, st =>
    let d := st.desc k
    if d.file == some f then
      if d.pinCnt > 0 then (.error (.pagePinned f d.pageNo k), st)
      else if !d.valid then
        (.error (.badBuffer k d.dirty d.valid d.refbit), st)
      else
        let st1 := if d.dirty then
          (BufState.setDesc (st.writeFrame f k) k { d with dirty := false })
          else st
        match hashLookup st1.hashTable f d.pageNo with
        | none => (.error .hashNotFound, st1)
        | some _ =>
          let st2 := { st1 with hashTable := hashErase st1.hashTable f d.pageNo }
          flushAux f ks (st2.setDesc k (d.descClear))
    else flushAux f ks st

/-- `BufMgr::flushFile(file)`: scan all frames in ascending id order. -/
def flushFile (f : FileId) (st : BufState) : Except BufError Unit × BufState :=
  flushAux f (List.range st.numBufs) st

/-- `BufMgr::allocPage(file, pageNo, page)`: `file->allocatePage()`
first, then `allocBuf`, then `bufPool[frame] = file->readPage(newId)`,
hash insert, `Set()`; returns the new page id and the frame. -/
def allocPage (f : FileId) (st : BufState) :
    Except BufError (PageId × Nat) × BufState :=
  let a := st.fs.allocatePage f
  let st0 := { st with fs := a.2, log := st.log ++ [.allocate f a.1] }
  match allocBuf st0 with
  | (.error e, st1) => (.error e, st1)
  | (.ok id, st1) =>
    match st1.fs.readPage f a.1 with
    | none => (.error (.invalidPage f a.1), st1)
    | some pg =>
      let st2 := BufState.setPool { st1 with log := st1.log ++ [.read f a.1] } id pg
      if (hashLookup st2.hashTable f a.1).isSome then
        (.error .hashAlreadyPresent, st2)
      else
        let st3 := { st2 with hashTable := ((f, a.1), id) :: st2.hashTable }
        (.ok (a.1, id), st3.setDesc id ((st3.desc id).descSet f a.1))

/-- `BufMgr::disposePage(file, PageNo)`: if resident, `Clear()` the
frame then remove the hash entry (the lookup succeeded, so `remove`
cannot throw); in both cases `file->deletePage(PageNo)`. -/
def disposePage (f : FileId) (p : PageId) (st : BufState) :
    Except BufError Unit × BufState :=
  let st1 := match hashLookup st.hashTable f p with
    | some id =>
      let stc := st.setDesc id ((st.desc id).descClear)
      { stc with hashTable := hashErase stc.hashTable f p }
    | none => st
  (.ok (), { st1 with fs := st1.fs.deletePage f p,
                      log := st1.log ++ [.delete f p] })

/-- The `BufMgr` constructor: `numBufs = bufs` frames, descriptors
with `frameNo = i` and `valid = false` (remaining fields are the
`BufDesc` defaults, modelled from the spec: frames start invalid with
no owner, `pinCount 0`, flags clear — `buffer.h` is not under `src/`),
an empty hash table, and `clockHand = bufs − 1`. -/
def mkBufMgr (bufs : Nat) (fs : FileSys) : BufState :=
  { numBufs := bufs
  , bufDescTable := (List.range bufs).map
      (fun i => { frameNo := i, file := none, pageNo := 0, pinCnt := 0,
                  dirty := false, valid := false, refbit := false })
  , bufPool := List.replicate bufs default
  , hashTable := []
  , clockHand := bufs - 1
  , fs := fs
  , log := [] }

end BufMgr

deriving instance DecidableEq for Except

/-! ### Well-formedness and the §3 descriptor/index invariants -/

/-- Structural well-formedness of a manager state: a non-empty pool,
descriptor table and pool of the advertised length, clock hand in
range. -/
def WF (st : BufState) : Prop :=
  0 < st.numBufs ∧ st.bufDescTable.length = st.numBufs ∧
    st.bufPool.length = st.numBufs ∧ st.clockHand < st.numBufs

instance (st : BufState) : Decidable (WF st) := by
  unfold WF; infer_instance

/-- The §3 data-model invariants: (a) an invalid frame is unpinned,
clean and unowned; (b) every Frame Index entry points into the pool, at
a valid frame whose owner and page match the key; (c) every valid frame
has an owner and its (file, pageNo) key is mapped back to it by the
index; (d) index keys are unique. -/
def BufInv (st : BufState) : Prop :=
  (∀ i, i < st.numBufs → (st.desc i).valid = false →
      (st.desc i).pinCnt = 0 ∧ (st.desc i).dirty = false ∧
        (st.desc i).file = none) ∧
  (∀ e ∈ st.hashTable,
      e.2 < st.numBufs ∧ (st.desc e.2).valid = true ∧
        (st.desc e.2).file = some e.1.1 ∧ (st.desc e.2).pageNo = e.1.2) ∧
  (∀ i, i < st.numBufs → (st.desc i).valid = true →
      (st.desc i).file.isSome = true ∧
        hashLookup st.hashTable ((st.desc i).file.getD 0) ((st.desc i).pageNo)
          = some i) ∧
  (st.hashTable.map Prod.fst).Nodup

instance (st : BufState) : Decidable (BufInv st) := by
  unfold BufInv; infer_instance

/-- The §4.3 miss path in the ORDER the spec sentence states it, for
comparison with `BufMgr.readPage`: "obtain a victim frame (4.2); read
page content from the file into it; insert (file, pageId)→frame into
the index; apply `Set()`".  The hit path is the same as the code's. -/
def readPageSpecOrder (f : FileId) (p : PageId) (st : BufState) :
    Except BufError Nat × BufState :=
  match hashLookup st.hashTable f p with
  | some id =>
    (.ok id,
      st.setDesc id { st.desc id with pinCnt := (st.desc id).pinCnt + 1,
                                      refbit := true })
  | none =>
    match BufMgr.allocBuf st with
    | (.error e, st1) => (.error e, st1)
    | (.ok id, st1) =>
      match st1.fs.readPage f p with
      | none => (.error (.invalidPage f p), st1)
      | some pg =>
        let st2 := BufState.setPool { st1 with log := st1.log ++ [.read f p] } id pg
        if (hashLookup st2.hashTable f p).isSome then
          (.error .hashAlreadyPresent, st2)
        else
          let st3 := { st2 with hashTable := ((f, p), id) :: st2.hashTable }
          (.ok id, st3.setDesc id ((st3.desc id).descSet f p))

/-! ### Concrete states used to instantiate the theorems -/

/-- One frame, valid, unpinned, unreferenced, DIRTY, holding page
(9, 5); the file system also holds page (7, 3).  The next victim
selection evicts frame 0 with a write-back. -/
def stVictim : BufState :=
  { numBufs := 1
  , bufDescTable := [{ frameNo := 0, file := some 9, pageNo := 5, pinCnt := 0,
                       dirty := true, valid := true, refbit := false }]
  , bufPool := [⟨5, 99⟩]
  , hashTable := [((9, 5), 0)]
  , clockHand := 0
  , fs := ⟨[((9, 5), ⟨5, 11⟩), ((7, 3), ⟨3, 42⟩)]⟩
  , log := [] }

/-- One frame, valid and pinned with its reference bit set: every
frame is pinned, yet a sweep still mutates the reference bit. -/
def stAllPinned : BufState :=
  { numBufs := 1
  , bufDescTable := [{ frameNo := 0, file := some 7, pageNo := 3, pinCnt := 1,
                       dirty := false, valid := true, refbit := true }]
  , bufPool := [⟨3, 42⟩]
  , hashTable := [((7, 3), 0)]
  , clockHand := 0
  , fs := ⟨[((7, 3), ⟨3, 42⟩)]⟩
  , log := [] }

/-- One frame, valid and pinned twice, holding page (7, 3). -/
def stPinned : BufState :=
  { numBufs := 1
  , bufDescTable := [{ frameNo := 0, file := some 7, pageNo := 3, pinCnt := 2,
                       dirty := false, valid := true, refbit := true }]
  , bufPool := [⟨3, 42⟩]
  , hashTable := [((7, 3), 0)]
  , clockHand := 0
  , fs := ⟨[((7, 3), ⟨3, 42⟩)]⟩
  , log := [] }

/-- Three frames owned by file 7: frame 0 dirty and unpinned, frame 1
PINNED, frame 2 dirty and unpinned.  `flushFile 7` flushes frame 0 and
then aborts on frame 1. -/
def stFlush : BufState :=
  { numBufs := 3
  , bufDescTable :=
      [ { frameNo := 0, file := some 7, pageNo := 1, pinCnt := 0,
          dirty := true, valid := true, refbit := false }
      , { frameNo := 1, file := some 7, pageNo := 2, pinCnt := 1,
          dirty := false, valid := true, refbit := false }
      , { frameNo := 2, file := some 7, pageNo := 3, pinCnt := 0,
          dirty := true, valid := true, refbit := false } ]
  , bufPool := [⟨1, 10⟩, ⟨2, 20⟩, ⟨3, 30⟩]
  , hashTable := [((7, 1), 0), ((7, 2), 1), ((7, 3), 2)]
  , clockHand := 2
  , fs := ⟨[((7, 1), ⟨1, 0⟩), ((7, 2), ⟨2, 0⟩), ((7, 3), ⟨3, 0⟩)]⟩
  , log := [] }

/-! ### Small laws about the state accessors and the index model -/

theorem desc_setDesc_self (st : BufState) (i : Nat) (d : BufDesc)
    (h : i < st.bufDescTable.length) : (st.setDesc i d).desc i = d := by
  simp [BufState.desc, BufState.setDesc, List.getD_eq_getElem?_getD,
    List.getElem?_set_self h]

theorem desc_setDesc_ne (st : BufState) (i j : Nat) (d : BufDesc)
    (h : i ≠ j) : (st.setDesc i d).desc j = st.desc j := by
  simp [BufState.desc, BufState.setDesc, List.getD_eq_getElem?_getD,
    List.getElem?_set_ne h]

theorem pool_setPool_self (st : BufState) (i : Nat) (pg : Page)
    (h : i < st.bufPool.length) : (st.setPool i pg).pool i = pg := by
  simp [BufState.pool, BufState.setPool, List.getD_eq_getElem?_getD,
    List.getElem?_set_self h]

theorem pool_setPool_ne (st : BufState) (i j : Nat) (pg : Page)
    (h : i ≠ j) : (st.setPool i pg).pool j = st.pool j := by
  simp [BufState.pool, BufState.setPool, List.getD_eq_getElem?_getD,
    List.getElem?_set_ne h]

theorem hashLookup_erase_self (tbl : List ((FileId × PageId) × Nat))
    (f : FileId) (p : PageId) : hashLookup (hashErase tbl f p) f p = none := by
  induction tbl with
  | nil => rfl
  | cons e tl ih =>
    by_cases h : e.1 = (f, p) <;> simp [hashErase, hashLookup, h, ih]

theorem hashLookup_erase_ne (tbl : List ((FileId × PageId) × Nat))
    (f g : FileId) (p q : PageId) (h : (g, q) ≠ (f, p)) :
    hashLookup (hashErase tbl f p) g q = hashLookup tbl g q := by
  have h1 : ¬(g = f ∧ q = p) := fun hc => h (by simp [hc.1, hc.2])
  have h2 : ¬(f = g ∧ p = q) := fun hc => h (by simp [hc.1, hc.2])
  induction tbl with
  | nil => rfl
  | cons e tl ih =>
    by_cases he : e.1 = (f, p)
    · have hgq : e.1 ≠ (g, q) := by rw [he]; exact fun hc => h hc.symm
      simp [hashErase, hashLookup, he, hgq, ih, h1, h2]
    · by_cases hg : e.1 = (g, q) <;> simp [hashErase, hashLookup, he, hg, ih, h1, h2]

/-! ### C10: a failed file read during fetch leaves the state untouched -/

/-- C10: on a Frame Index miss, `readPage` issues the file read FIRST;
if the page does not exist the failure propagates with the manager's
state entirely unchanged — no victim selected, no frame cleared, clock
hand unmoved, index unmodified. -/
theorem readPage_read_fail_state_unchanged (f : FileId) (p : PageId)
    (st : BufState) (hmiss : hashLookup st.hashTable f p = none)
    (hread : st.fs.readPage f p = none) :
    BufMgr.readPage f p st = (.error (.invalidPage f p), st) := by
  unfold BufMgr.readPage
  rw [hmiss, hread]

/-- Witness for C10 on a concrete state: fetching the absent page
(7, 999) fails and returns `stVictim` unchanged. -/
theorem readPage_read_fail_state_unchanged_witness :
    BufMgr.readPage 7 999 stVictim = (.error (.invalidPage 7 999), stVictim) :=
  readPage_read_fail_state_unchanged 7 999 stVictim rfl rfl

/-! ### C5: unPinPage case analysis -/

/-- C5: `unPinPage` — an index miss is a no-op success; a hit on a
frame with `pinCount = 0` fails with the not-pinned condition naming
file, page and frame, leaving all state unchanged; otherwise the pin
count is decremented and the dirty bit becomes `dirty ∨ old dirty`
(set when the argument is true, NEVER cleared: with a false argument
an already-set bit stays set). -/
theorem unPinPage_spec (f : FileId) (p : PageId) (dirty : Bool)
    (st : BufState) (hWF : WF st) :
    (hashLookup st.hashTable f p = none →
      BufMgr.unPinPage f p dirty st = (.ok (), st)) ∧
    (∀ id, hashLookup st.hashTable f p = some id →
      (st.desc id).pinCnt = 0 →
      BufMgr.unPinPage f p dirty st = (.error (.pageNotPinned f p id), st)) ∧
    (∀ id, hashLookup st.hashTable f p = some id → id < st.numBufs →
      0 < (st.desc id).pinCnt →
      BufMgr.unPinPage f p dirty st =
        (.ok (), st.setDesc id
          { st.desc id with pinCnt := (st.desc id).pinCnt - 1,
                            dirty := (dirty || (st.desc id).dirty) })) := by
  refine ⟨fun hmiss => ?_, fun id hhit h0 => ?_, fun id hhit hid hpos => ?_⟩
  · unfold BufMgr.unPinPage
    rw [hmiss]
  · unfold BufMgr.unPinPage
    rw [hhit]
    simp [h0]
  · have hlen : id < st.bufDescTable.length := by
      rw [hWF.2.1]; exact hid
    unfold BufMgr.unPinPage
    rw [hhit]
    simp only [Nat.pos_iff_ne_zero.mp hpos, if_false]
    cases dirty with
    | false => simp
    | true =>
      simp only [if_true, Bool.true_or]
      rw [desc_setDesc_self st id _ hlen]
      simp [BufState.setDesc, List.set_set]

/-- Witness for C5: on `stPinned` (page (7, 3) pinned twice), an unpin
with a true dirty flag decrements the pin count to 1 and sets the
dirty bit. -/
theorem unPinPage_spec_witness :
    BufMgr.unPinPage 7 3 true stPinned =
      (.ok (), stPinned.setDesc 0
        { stPinned.desc 0 with pinCnt := 1, dirty := true }) :=
  (unPinPage_spec 7 3 true stPinned (by decide)).2.2 0 rfl (by decide) (by decide)

/-! ### C3: fetch of a resident page -/

/-- C3: a fetch of a resident page increments the mapped frame's pin
count by one, sets its reference bit, performs no file read (the log
and file system are untouched, as are pool and index), and returns
that same frame; fetching the same (file, pageId) again without
unpinning returns the same frame and leaves the pin count two higher
than initially — in particular `pinCount = 2` when the page was
resident and unpinned. -/
theorem readPage_hit_spec (f : FileId) (p : PageId) (st : BufState) (id : Nat)
    (hWF : WF st) (hhit : hashLookup st.hashTable f p = some id)
    (hid : id < st.numBufs) :
    ∃ st1, BufMgr.readPage f p st = (.ok id, st1) ∧
      st1 = st.setDesc id { st.desc id with pinCnt := (st.desc id).pinCnt + 1,
                                            refbit := true } ∧
      st1.log = st.log ∧ st1.fs = st.fs ∧ st1.bufPool = st.bufPool ∧
      st1.hashTable = st.hashTable ∧
      (st1.desc id).pinCnt = (st.desc id).pinCnt + 1 ∧
      (st1.desc id).refbit = true ∧
      (∀ j, j ≠ id → st1.desc j = st.desc j) ∧
      ∃ st2, BufMgr.readPage f p st1 = (.ok id, st2) ∧
        (st2.desc id).pinCnt = (st.desc id).pinCnt + 2 ∧
        st2.log = st.log ∧ st2.fs = st.fs := by
  have hlen : id < st.bufDescTable.length := by rw [hWF.2.1]; exact hid
  have hstep : BufMgr.readPage f p st =
      (.ok id, st.setDesc id { st.desc id with
        pinCnt := (st.desc id).pinCnt + 1, refbit := true }) := by
    unfold BufMgr.readPage
    rw [hhit]
  refine ⟨_, hstep, rfl, rfl, rfl, rfl, rfl, ?_, ?_, ?_, ?_⟩
  · rw [desc_setDesc_self st id _ hlen]
  · rw [desc_setDesc_self st id _ hlen]
  · intro j hj
    exact desc_setDesc_ne st id j _ (fun h => hj h.symm)
  · have hhit1 : hashLookup (st.setDesc id { st.desc id with
        pinCnt := (st.desc id).pinCnt + 1, refbit := true }).hashTable f p
        = some id := hhit
    have hstep2 : BufMgr.readPage f p
        (st.setDesc id { st.desc id with
          pinCnt := (st.desc id).pinCnt + 1, refbit := true }) =
        (.ok id,
          (st.setDesc id { st.desc id with
            pinCnt := (st.desc id).pinCnt + 1, refbit := true }).setDesc id
            { (st.setDesc id { st.desc id with
                pinCnt := (st.desc id).pinCnt + 1, refbit := true }).desc id with
              pinCnt := ((st.setDesc id { st.desc id with
                pinCnt := (st.desc id).pinCnt + 1, refbit := true }).desc id).pinCnt + 1,
              refbit := true }) := by
      unfold BufMgr.readPage
      rw [hhit1]
    refine ⟨_, hstep2, ?_, rfl, rfl⟩
    rw [desc_setDesc_self _ id _ (by simpa [BufState.setDesc] using hlen),
        desc_setDesc_self st id _ hlen]

/-- Witness for C3: on `stVictim` the resident page (9, 5) is mapped
to frame 0 with `pinCount 0`; fetching it twice yields frame 0 both
times and `pinCount = 2`, with no I/O logged. -/
theorem readPage_hit_spec_witness :
    ∃ st1, BufMgr.readPage 9 5 stVictim = (.ok 0, st1) ∧
      st1.log = stVictim.log ∧
      ∃ st2, BufMgr.readPage 9 5 st1 = (.ok 0, st2) ∧
        (st2.desc 0).pinCnt = 2 := by
  obtain ⟨st1, h1, _, hlog, _, _, _, _, _, _, st2, h2, hpin, _⟩ :=
    readPage_hit_spec 9 5 stVictim 0 (by decide) rfl (by decide)
  exact ⟨st1, h1, hlog, st2, h2, hpin⟩

/-! ### C1: selecting an unreferenced, unpinned, valid frame -/

@[simp] theorem desc_advanceClock (st : BufState) (i : Nat) :
    (BufMgr.advanceClock st).desc i = st.desc i := rfl

@[simp] theorem clockHand_advanceClock (st : BufState) :
    (BufMgr.advanceClock st).clockHand = (st.clockHand + 1) % st.numBufs := rfl

@[simp] theorem desc_writeFrame (st : BufState) (f : FileId) (i j : Nat) :
    (st.writeFrame f i).desc j = st.desc j := rfl

@[simp] theorem hashTable_writeFrame (st : BufState) (f : FileId) (i : Nat) :
    (st.writeFrame f i).hashTable = st.hashTable := rfl

@[simp] theorem hashTable_advanceClock (st : BufState) :
    (BufMgr.advanceClock st).hashTable = st.hashTable := rfl

/-- C1: when the clock hand reaches a valid frame with `refbit = false`
and `pinCount = 0` (stated as a single sweep step from any state, for
any remaining step budget `n + 1`), `allocBuf`'s sweep: writes the
frame back through its owning file iff it is dirty, removes the (file,
pageNo) entry from the Frame Index, clears the descriptor to the
invalid state, and selects that frame as the victim, leaving all other
frames, the pool and unrelated index entries untouched.  (The
"absence is not an error" half is established separately by the code's
`catch`; here the entry exists, as §3's invariants guarantee for a
valid frame.) -/
theorem allocSweep_victim_spec (n : Nat) (st : BufState) (f : FileId)
    (k h : Nat) (hWF : WF st)
    (hh : h = (st.clockHand + 1) % st.numBufs)
    (hv : (st.desc h).valid = true)
    (hr : (st.desc h).refbit = false)
    (hp : (st.desc h).pinCnt = 0)
    (hf : (st.desc h).file = some f)
    (hentry : hashLookup st.hashTable f ((st.desc h).pageNo) = some k) :
    ∃ st', BufMgr.allocSweep (n + 1) st = .selected h st' ∧
      st'.desc h = (st.desc h).descClear ∧
      hashLookup st'.hashTable f ((st.desc h).pageNo) = none ∧
      (∀ g q, (g, q) ≠ (f, (st.desc h).pageNo) →
        hashLookup st'.hashTable g q = hashLookup st.hashTable g q) ∧
      (∀ j, j ≠ h → st'.desc j = st.desc j) ∧
      st'.bufPool = st.bufPool ∧ st'.clockHand = h ∧
      ((st.desc h).dirty = true →
        st'.fs = st.fs.writePage f (st.pool h) ∧
        st'.log = st.log ++ [.write f (st.pool h).page_number (st.pool h)]) ∧
      ((st.desc h).dirty = false → st'.fs = st.fs ∧ st'.log = st.log) := by
  subst hh
  have hlen : (st.clockHand + 1) % st.numBufs < st.bufDescTable.length := by
    rw [hWF.2.1]; exact Nat.mod_lt _ hWF.1
  by_cases hd : (st.desc ((st.clockHand + 1) % st.numBufs)).dirty
  · refine ⟨BufState.setDesc
      { (BufMgr.advanceClock st).writeFrame f ((st.clockHand + 1) % st.numBufs) with
        hashTable := hashErase st.hashTable f
          ((st.desc ((st.clockHand + 1) % st.numBufs)).pageNo) }
      ((st.clockHand + 1) % st.numBufs)
      ((st.desc ((st.clockHand + 1) % st.numBufs)).descClear), ?_, ?_, ?_, ?_, ?_,
      rfl, rfl, fun _ => ⟨rfl, rfl⟩, fun hc => absurd hd (by simp [hc])⟩
    · simp only [BufMgr.allocSweep, desc_advanceClock, clockHand_advanceClock,
        hashTable_writeFrame, hv, hr, hp, hf, hd, hentry]
      simp [hentry]
    · exact desc_setDesc_self _ _ _ hlen
    · exact hashLookup_erase_self _ _ _
    · intro g q hgq
      exact hashLookup_erase_ne _ _ _ _ _ hgq
    · intro j hj
      rw [desc_setDesc_ne _ _ _ _ (fun hc => hj hc.symm)]; rfl
  · rw [Bool.not_eq_true] at hd
    refine ⟨BufState.setDesc
      { BufMgr.advanceClock st with
        hashTable := hashErase st.hashTable f
          ((st.desc ((st.clockHand + 1) % st.numBufs)).pageNo) }
      ((st.clockHand + 1) % st.numBufs)
      ((st.desc ((st.clockHand + 1) % st.numBufs)).descClear), ?_, ?_, ?_, ?_, ?_,
      rfl, rfl, fun hc => absurd hd (by simp [hc]), fun _ => ⟨rfl, rfl⟩⟩
    · simp only [BufMgr.allocSweep, desc_advanceClock, clockHand_advanceClock,
        hashTable_advanceClock, hv, hr, hp, hf, hd, hentry]
      simp [hentry]
    · exact desc_setDesc_self _ _ _ hlen
    · exact hashLookup_erase_self _ _ _
    · intro g q hgq
      exact hashLookup_erase_ne _ _ _ _ _ hgq
    · intro j hj
      rw [desc_setDesc_ne _ _ _ _ (fun hc => hj hc.symm)]; rfl

/-- Witness for C1: on `stVictim` (one valid, dirty, unpinned,
unreferenced frame holding page (9, 5)), the sweep selects frame 0,
clears its descriptor, removes (9, 5) from the index and writes the
content back. -/
theorem allocSweep_victim_spec_witness :
    ∃ st', BufMgr.allocSweep 1 stVictim = .selected 0 st' ∧
      st'.desc 0 = (stVictim.desc 0).descClear ∧
      hashLookup st'.hashTable 9 5 = none ∧
      st'.log = [.write 9 5 ⟨5, 99⟩] := by
  obtain ⟨st', h1, h2, h3, _, _, _, _, h8, _⟩ :=
    allocSweep_victim_spec 0 stVictim 9 0 0 (by decide) rfl rfl rfl rfl rfl rfl
  exact ⟨st', h1, h2, h3, (h8 rfl).2⟩

/-! ### Sweep analysis for C2: exhaustion, refbit clearing, success -/

/-- An exhausted sweep changes nothing but reference bits (each
descriptor is either untouched or has only its `refbit` cleared) and
the clock hand. -/
theorem allocSweep_exhausted_shape : ∀ (n : Nat) (st st' : BufState),
    BufMgr.allocSweep n st = .exhausted st' →
    st'.numBufs = st.numBufs ∧ st'.bufPool = st.bufPool ∧
    st'.hashTable = st.hashTable ∧ st'.fs = st.fs ∧ st'.log = st.log ∧
    st'.bufDescTable.length = st.bufDescTable.length ∧
    (∀ i, st'.desc i = st.desc i ∨
      st'.desc i = { st.desc i with refbit := false })
  | 0, st, st', h => by
    simp only [BufMgr.allocSweep] at h
    cases h
    exact ⟨rfl, rfl, rfl, rfl, rfl, rfl, fun i => Or.inl rfl⟩
  | n + 1, st, st', h => by
    simp only [BufMgr.allocSweep, desc_advanceClock, clockHand_advanceClock] at h
    by_cases hv : (st.desc ((st.clockHand + 1) % st.numBufs)).valid
    · rw [if_neg (by simp [hv])] at h
      by_cases hr : (st.desc ((st.clockHand + 1) % st.numBufs)).refbit
      · have hlt : (st.clockHand + 1) % st.numBufs < st.bufDescTable.length := by
          by_contra hlt
          have hdef : st.desc ((st.clockHand + 1) % st.numBufs) = default := by
            simp [BufState.desc, List.getD_eq_getElem?_getD,
              List.getElem?_eq_none (Nat.le_of_not_lt hlt)]
          rw [hdef] at hr
          exact Bool.false_ne_true hr
        rw [if_pos hr] at h
        have ih := allocSweep_exhausted_shape n _ _ h
        obtain ⟨i1, i2, i3, i4, i5, i6, i7⟩ := ih
        refine ⟨i1, i2, i3, i4, i5, ?_, ?_⟩
        · rw [i6]
          simp [BufState.setDesc, BufMgr.advanceClock, List.length_set]
        · intro i
          have hset := desc_setDesc_self (BufMgr.advanceClock st)
            ((st.clockHand + 1) % st.numBufs)
            { st.desc ((st.clockHand + 1) % st.numBufs) with refbit := false } hlt
          rcases i7 i with hcase | hcase <;> rw [hcase] <;> clear hcase <;>
            by_cases hi : i = (st.clockHand + 1) % st.numBufs
          · rw [hi]
            right
            exact hset
          · left
            exact desc_setDesc_ne _ _ _ _ (fun hc => hi hc.symm)
          · rw [hi]
            right
            exact (congrArg (fun d => { d with refbit := false }) hset).trans rfl
          · right
            exact congrArg (fun d => { d with refbit := false })
              (desc_setDesc_ne _ _ _ _ (fun hc => hi hc.symm))
      · rw [if_neg (by simp [Bool.not_eq_true] at hr ⊢; exact hr)] at h
        by_cases hp : (st.desc ((st.clockHand + 1) % st.numBufs)).pinCnt > 0
        · rw [if_pos hp] at h
          obtain ⟨i1, i2, i3, i4, i5, i6, i7⟩ := allocSweep_exhausted_shape n _ _ h
          exact ⟨i1, i2, i3, i4, i5, i6, i7⟩
        · rw [if_neg hp] at h
          exact absurd h (by simp)
    · rw [if_pos (by simp [Bool.not_eq_true] at hv ⊢; exact hv)] at h
      exact absurd h (by simp)

/-- An exhausted sweep of `n` steps advances the clock hand by `n`
(mod `numBufs`). -/
theorem allocSweep_exhausted_clockHand : ∀ (n : Nat) (st st' : BufState),
    BufMgr.allocSweep n st = .exhausted st' →
    0 < st.numBufs → st.clockHand < st.numBufs →
    st'.clockHand = (st.clockHand + n) % st.numBufs
  | 0, st, st', h, _, hh => by
    simp only [BufMgr.allocSweep] at h
    cases h
    simpa using (Nat.mod_eq_of_lt hh).symm
  | n + 1, st, st', h, hN, _ => by
    simp only [BufMgr.allocSweep, desc_advanceClock, clockHand_advanceClock] at h
    by_cases hv : (st.desc ((st.clockHand + 1) % st.numBufs)).valid
    · rw [if_neg (by simp [hv])] at h
      by_cases hr : (st.desc ((st.clockHand + 1) % st.numBufs)).refbit
      · rw [if_pos hr] at h
        have ih := allocSweep_exhausted_clockHand n _ _ h hN (Nat.mod_lt _ hN)
        rw [ih]
        show ((st.clockHand + 1) % st.numBufs + n) % st.numBufs =
          (st.clockHand + (n + 1)) % st.numBufs
        rw [Nat.mod_add_mod]
        have harith : st.clockHand + 1 + n = st.clockHand + (n + 1) := by omega
        rw [harith]
      · rw [if_neg (by simp [Bool.not_eq_true] at hr ⊢; exact hr)] at h
        by_cases hp : (st.desc ((st.clockHand + 1) % st.numBufs)).pinCnt > 0
        · rw [if_pos hp] at h
          have ih := allocSweep_exhausted_clockHand n _ _ h hN (Nat.mod_lt _ hN)
          rw [ih]
          show ((st.clockHand + 1) % st.numBufs + n) % st.numBufs =
            (st.clockHand + (n + 1)) % st.numBufs
          rw [Nat.mod_add_mod]
          have harith : st.clockHand + 1 + n = st.clockHand + (n + 1) := by omega
          rw [harith]
        · rw [if_neg hp] at h
          exact absurd h (by simp)
    · rw [if_pos (by simp [Bool.not_eq_true] at hv ⊢; exact hv)] at h
      exact absurd h (by simp)

/-- After an exhausted sweep, every frame the sweep visited has its
reference bit cleared: the frame visited at step `j` sits at
`(clockHand + j) % numBufs`. -/
theorem allocSweep_exhausted_refbit : ∀ (n : Nat) (st st' : BufState),
    BufMgr.allocSweep n st = .exhausted st' →
    ∀ j, 1 ≤ j → j ≤ n →
      (st'.desc ((st.clockHand + j) % st.numBufs)).refbit = false
  | 0, _, _, _, _, h1, h2 => absurd (le_trans h1 h2) (by omega)
  | n + 1, st, st', h, j, h1, h2 => by
    simp only [BufMgr.allocSweep, desc_advanceClock, clockHand_advanceClock] at h
    by_cases hv : (st.desc ((st.clockHand + 1) % st.numBufs)).valid
    · rw [if_neg (by simp [hv])] at h
      by_cases hr : (st.desc ((st.clockHand + 1) % st.numBufs)).refbit
      · have hlt : (st.clockHand + 1) % st.numBufs < st.bufDescTable.length := by
          by_contra hlt
          have hdef : st.desc ((st.clockHand + 1) % st.numBufs) = default := by
            simp [BufState.desc, List.getD_eq_getElem?_getD,
              List.getElem?_eq_none (Nat.le_of_not_lt hlt)]
          rw [hdef] at hr
          exact Bool.false_ne_true hr
        rw [if_pos hr] at h
        have hset := desc_setDesc_self (BufMgr.advanceClock st)
          ((st.clockHand + 1) % st.numBufs)
          { st.desc ((st.clockHand + 1) % st.numBufs) with refbit := false } hlt
        rcases eq_or_lt_of_le h1 with hj | hj
        · -- j = 1: the frame just visited
          subst hj
          obtain ⟨_, _, _, _, _, _, i7⟩ := allocSweep_exhausted_shape n _ _ h
          rcases i7 ((st.clockHand + 1) % st.numBufs) with hcase | hcase <;>
            rw [hcase]
          simpa using congrArg BufDesc.refbit hset
        · -- j ≥ 2: visited later, use the induction hypothesis
          have ih := allocSweep_exhausted_refbit n _ _ h (j - 1)
            (by omega) (by omega)
          have hpos : ((st.clockHand + 1) % st.numBufs + (j - 1)) % st.numBufs =
              (st.clockHand + j) % st.numBufs := by
            rw [Nat.mod_add_mod]
            have harith : st.clockHand + 1 + (j - 1) = st.clockHand + j := by omega
            rw [harith]
          rw [show ((BufMgr.advanceClock st).setDesc ((st.clockHand + 1) % st.numBufs)
              { st.desc ((st.clockHand + 1) % st.numBufs) with refbit := false }).clockHand
              = (st.clockHand + 1) % st.numBufs from rfl] at ih
          rw [show ((BufMgr.advanceClock st).setDesc ((st.clockHand + 1) % st.numBufs)
              { st.desc ((st.clockHand + 1) % st.numBufs) with refbit := false }).numBufs
              = st.numBufs from rfl] at ih
          rw [hpos] at ih
          exact ih
      · rw [if_neg (by simp [Bool.not_eq_true] at hr ⊢; exact hr)] at h
        by_cases hp : (st.desc ((st.clockHand + 1) % st.numBufs)).pinCnt > 0
        · rw [if_pos hp] at h
          rcases eq_or_lt_of_le h1 with hj | hj
          · subst hj
            obtain ⟨_, _, _, _, _, _, i7⟩ := allocSweep_exhausted_shape n _ _ h
            rw [Bool.not_eq_true] at hr
            rcases i7 ((st.clockHand + 1) % st.numBufs) with hcase | hcase <;>
              rw [hcase]
            exact hr
          · have ih := allocSweep_exhausted_refbit n _ _ h (j - 1)
              (by omega) (by omega)
            have hpos : ((st.clockHand + 1) % st.numBufs + (j - 1)) % st.numBufs =
                (st.clockHand + j) % st.numBufs := by
              rw [Nat.mod_add_mod]
              have harith : st.clockHand + 1 + (j - 1) = st.clockHand + j := by omega
              rw [harith]
            rw [show (BufMgr.advanceClock st).clockHand
                = (st.clockHand + 1) % st.numBufs from rfl] at ih
            rw [show (BufMgr.advanceClock st).numBufs = st.numBufs from rfl] at ih
            rw [hpos] at ih
            exact ih
        · rw [if_neg hp] at h
          exact absurd h (by simp)
    · rw [if_pos (by simp [Bool.not_eq_true] at hv ⊢; exact hv)] at h
      exact absurd h (by simp)

/-- Reaching any frame: from hand position `h` there is a step count
`j ∈ [1, N]` whose visit lands on frame `i`. -/
theorem exists_step_to (h i N : Nat) (hh : h < N) (hi : i < N) :
    ∃ j, 1 ≤ j ∧ j ≤ N ∧ (h + j) % N = i := by
  rcases Nat.lt_or_ge h i with hlt | hge
  · refine ⟨i - h, by omega, by omega, ?_⟩
    rw [show h + (i - h) = i by omega]
    exact Nat.mod_eq_of_lt hi
  · refine ⟨N - h + i, by omega, by omega, ?_⟩
    rw [show h + (N - h + i) = N + i by omega, Nat.add_mod_left]
    exact Nat.mod_eq_of_lt hi

/-- If some step of the sweep lands on an invalid frame or on an
unreferenced, unpinned one, the sweep selects a victim. -/
theorem allocSweep_selects : ∀ (n : Nat) (st : BufState),
    (∃ j, 1 ≤ j ∧ j ≤ n ∧
      ((st.desc ((st.clockHand + j) % st.numBufs)).valid = false ∨
       ((st.desc ((st.clockHand + j) % st.numBufs)).refbit = false ∧
        (st.desc ((st.clockHand + j) % st.numBufs)).pinCnt = 0))) →
    ∃ v st', BufMgr.allocSweep n st = .selected v st'
  | 0, _, ⟨_, h1, h2, _⟩ => absurd (le_trans h1 h2) (by omega)
  | n + 1, st, ⟨j, h1, h2, hsel⟩ => by
    by_cases hv : (st.desc ((st.clockHand + 1) % st.numBufs)).valid
    · by_cases hr : (st.desc ((st.clockHand + 1) % st.numBufs)).refbit
      · -- second-chance step; the winning frame is reached later
        by_cases hqp : (st.clockHand + j) % st.numBufs =
            (st.clockHand + 1) % st.numBufs
        · rw [hqp] at hsel
          rcases hsel with hbad | ⟨hbad, _⟩
          · rw [hv] at hbad; cases hbad
          · rw [hr] at hbad; cases hbad
        · have hj2 : 2 ≤ j := by
            by_contra hcon
            push_neg at hcon
            have hj1 : j = 1 := by omega
            rw [hj1] at hqp
            exact hqp rfl
          have hlt : (st.clockHand + 1) % st.numBufs < st.bufDescTable.length := by
            by_contra hlt
            have hdef : st.desc ((st.clockHand + 1) % st.numBufs) = default := by
              simp [BufState.desc, List.getD_eq_getElem?_getD,
                List.getElem?_eq_none (Nat.le_of_not_lt hlt)]
            rw [hdef] at hr
            exact Bool.false_ne_true hr
          have hq : ((st.clockHand + 1) % st.numBufs + (j - 1)) % st.numBufs =
              (st.clockHand + j) % st.numBufs := by
            rw [Nat.mod_add_mod]
            congr 1
            omega
          have hmid : ((BufMgr.advanceClock st).setDesc
              ((st.clockHand + 1) % st.numBufs)
              { st.desc ((st.clockHand + 1) % st.numBufs) with refbit := false }).desc
              ((st.clockHand + j) % st.numBufs)
              = st.desc ((st.clockHand + j) % st.numBufs) :=
            desc_setDesc_ne _ _ _ _ (fun hc => hqp hc.symm)
          obtain ⟨v, st', hrun⟩ := allocSweep_selects n
            ((BufMgr.advanceClock st).setDesc ((st.clockHand + 1) % st.numBufs)
              { st.desc ((st.clockHand + 1) % st.numBufs) with refbit := false })
            ⟨j - 1, by omega, by omega, by
              show _ ∨ _
              rw [show ((BufMgr.advanceClock st).setDesc
                  ((st.clockHand + 1) % st.numBufs)
                  { st.desc ((st.clockHand + 1) % st.numBufs) with
                    refbit := false }).clockHand
                  = (st.clockHand + 1) % st.numBufs from rfl]
              rw [show ((BufMgr.advanceClock st).setDesc
                  ((st.clockHand + 1) % st.numBufs)
                  { st.desc ((st.clockHand + 1) % st.numBufs) with
                    refbit := false }).numBufs = st.numBufs from rfl]
              rw [hq, hmid]
              exact hsel⟩
          refine ⟨v, st', ?_⟩
          simp only [BufMgr.allocSweep, desc_advanceClock, clockHand_advanceClock]
          rw [if_neg (by simp [hv]), if_pos hr]
          exact hrun
      · by_cases hp : (st.desc ((st.clockHand + 1) % st.numBufs)).pinCnt > 0
        · -- pinned step; the winning frame is reached later
          by_cases hqp : (st.clockHand + j) % st.numBufs =
              (st.clockHand + 1) % st.numBufs
          · rw [hqp] at hsel
            rcases hsel with hbad | ⟨_, hbad⟩
            · rw [hv] at hbad; cases hbad
            · omega
          · have hq : ((st.clockHand + 1) % st.numBufs + (j - 1)) % st.numBufs =
                (st.clockHand + j) % st.numBufs := by
              rw [Nat.mod_add_mod]
              congr 1
              have hj2 : 2 ≤ j := by
                by_contra hcon
                push_neg at hcon
                have hj1 : j = 1 := by omega
                rw [hj1] at hqp
                exact hqp rfl
              omega
            obtain ⟨v, st', hrun⟩ := allocSweep_selects n (BufMgr.advanceClock st)
              ⟨j - 1, by
                  have hj2 : 2 ≤ j := by
                    by_contra hcon
                    push_neg at hcon
                    have hj1 : j = 1 := by omega
                    rw [hj1] at hqp
                    exact hqp rfl
                  omega, by omega, by
                show _ ∨ _
                rw [show (BufMgr.advanceClock st).clockHand
                    = (st.clockHand + 1) % st.numBufs from rfl]
                rw [show (BufMgr.advanceClock st).numBufs = st.numBufs from rfl]
                rw [hq]
                exact hsel⟩
            refine ⟨v, st', ?_⟩
            simp only [BufMgr.allocSweep, desc_advanceClock, clockHand_advanceClock]
            rw [if_neg (by simp [hv]), if_neg (by simp [Bool.not_eq_true] at hr ⊢; exact hr),
              if_pos hp]
            exact hrun
        · -- unreferenced and unpinned: select right here
          exact ⟨_, _, by
            simp only [BufMgr.allocSweep, desc_advanceClock, clockHand_advanceClock]
            rw [if_neg (by simp [hv]),
              if_neg (by simp [Bool.not_eq_true] at hr ⊢; exact hr), if_neg hp]⟩
    · refine ⟨(st.clockHand + 1) % st.numBufs, BufMgr.advanceClock st, ?_⟩
      simp only [BufMgr.allocSweep, desc_advanceClock, clockHand_advanceClock]
      rw [if_pos (by simp [Bool.not_eq_true] at hv ⊢; exact hv)]

/-- With every frame valid and pinned, a sweep can only exhaust. -/
theorem allocSweep_all_pinned_exhausts : ∀ (n : Nat) (st : BufState),
    (∀ i, i < st.numBufs → (st.desc i).valid = true ∧ 0 < (st.desc i).pinCnt) →
    0 < st.numBufs →
    ∃ st', BufMgr.allocSweep n st = .exhausted st'
  | 0, st, _, _ => ⟨st, rfl⟩
  | n + 1, st, hall, hN => by
    have hpos : (st.clockHand + 1) % st.numBufs < st.numBufs := Nat.mod_lt _ hN
    obtain ⟨hv, hp⟩ := hall _ hpos
    by_cases hr : (st.desc ((st.clockHand + 1) % st.numBufs)).refbit
    · have hlt : (st.clockHand + 1) % st.numBufs < st.bufDescTable.length := by
        by_contra hlt
        have hdef : st.desc ((st.clockHand + 1) % st.numBufs) = default := by
          simp [BufState.desc, List.getD_eq_getElem?_getD,
            List.getElem?_eq_none (Nat.le_of_not_lt hlt)]
        rw [hdef] at hv
        exact Bool.false_ne_true hv
      have hset := desc_setDesc_self (BufMgr.advanceClock st)
        ((st.clockHand + 1) % st.numBufs)
        { st.desc ((st.clockHand + 1) % st.numBufs) with refbit := false } hlt
      obtain ⟨st', hrun⟩ := allocSweep_all_pinned_exhausts n
        ((BufMgr.advanceClock st).setDesc ((st.clockHand + 1) % st.numBufs)
          { st.desc ((st.clockHand + 1) % st.numBufs) with refbit := false })
        (by
          intro i hi
          by_cases hip : i = (st.clockHand + 1) % st.numBufs
          · rw [hip, hset]
            exact ⟨hv, hp⟩
          · rw [desc_setDesc_ne _ _ _ _ (fun hc => hip hc.symm)]
            exact hall i hi) hN
      refine ⟨st', ?_⟩
      simp only [BufMgr.allocSweep, desc_advanceClock, clockHand_advanceClock]
      rw [if_neg (by simp [hv]), if_pos hr]
      exact hrun
    · obtain ⟨st', hrun⟩ := allocSweep_all_pinned_exhausts n
        (BufMgr.advanceClock st) (fun i hi => hall i hi) hN
      refine ⟨st', ?_⟩
      simp only [BufMgr.allocSweep, desc_advanceClock, clockHand_advanceClock]
      rw [if_neg (by simp [hv]),
        if_neg (by simp [Bool.not_eq_true] at hr ⊢; exact hr), if_pos hp]
      exact hrun

/-- Whenever some frame is unpinned, `allocBuf` succeeds: at worst one
full sweep clears every reference bit and the second sweep then selects
an unpinned frame.  (In particular the `while (true)` loop never needs
more than two rounds, so the fuel-2 model is faithful.) -/
theorem allocBuf_succeeds (st : BufState) (hWF : WF st)
    (hfree : ∃ i, i < st.numBufs ∧ (st.desc i).pinCnt = 0) :
    ∃ v st', BufMgr.allocBuf st = (.ok v, st') := by
  obtain ⟨hN, hlen, hplen, hhand⟩ := hWF
  obtain ⟨i, hi, hpin⟩ := hfree
  cases hsw : BufMgr.allocSweep st.numBufs st with
  | selected v st1 =>
    refine ⟨v, st1, ?_⟩
    unfold BufMgr.allocBuf BufMgr.allocBufLoop
    rw [hsw]
  | exhausted st1 =>
    obtain ⟨s1, s2, s3, s4, s5, s6, s7⟩ := allocSweep_exhausted_shape _ _ _ hsw
    have hpin1 : (st1.desc i).pinCnt = 0 := by
      rcases s7 i with hc | hc <;> rw [hc] <;> exact hpin
    have hhand1 : st1.clockHand = st.clockHand := by
      rw [allocSweep_exhausted_clockHand _ _ _ hsw hN hhand, Nat.add_mod_right]
      exact Nat.mod_eq_of_lt hhand
    have hilen : i < st1.bufDescTable.length := by
      rw [s6, hlen]; exact hi
    have hsome : BufMgr.someUnpinned st1 = true := by
      rw [BufMgr.someUnpinned, List.any_eq_true]
      refine ⟨st1.bufDescTable[i], List.getElem_mem hilen, ?_⟩
      have hdi : st1.desc i = st1.bufDescTable[i] := by
        simp [BufState.desc, List.getD_eq_getElem?_getD,
          List.getElem?_eq_getElem hilen]
      rw [← hdi, hpin1]
      rfl
    obtain ⟨j0, hj01, hj02, hj0e⟩ := exists_step_to st.clockHand i st.numBufs hhand hi
    have hrefb : (st1.desc i).refbit = false := by
      have hrb := allocSweep_exhausted_refbit _ _ _ hsw j0 hj01 hj02
      rw [hj0e] at hrb
      exact hrb
    obtain ⟨j, hj1, hj2, hje⟩ := exists_step_to st1.clockHand i st1.numBufs
      (by rw [s1, hhand1]; exact hhand) (by rw [s1]; exact hi)
    obtain ⟨v, st2, hsel⟩ := allocSweep_selects st1.numBufs st1
      ⟨j, hj1, hj2, by
        rw [hje]
        by_cases hval : (st1.desc i).valid
        · exact Or.inr ⟨hrefb, hpin1⟩
        · rw [Bool.not_eq_true] at hval
          exact Or.inl hval⟩
    refine ⟨v, st2, ?_⟩
    unfold BufMgr.allocBuf BufMgr.allocBufLoop
    simp only [hsw]
    rw [if_pos hsome]
    unfold BufMgr.allocBufLoop
    simp only [hsel]

/-! ### C2: capacity exceeded / eventual success -/

/-- Counterexample to C2 as stated: on a pool whose single frame is
valid and pinned with its reference bit set, `allocBuf` does fail with
the capacity-exceeded condition, but NOT "with no state change": the
sweep cleared the frame's reference bit. -/
theorem allocBuf_allPinned_state_change :
    (BufMgr.allocBuf stAllPinned).1 = .error .bufferExceeded ∧
    (BufMgr.allocBuf stAllPinned).2 ≠ stAllPinned ∧
    ((BufMgr.allocBuf stAllPinned).2.desc 0).refbit = false ∧
    (stAllPinned.desc 0).refbit = true := by decide

/-- C2 amended: with every frame valid and pinned, `allocBuf` fails
with the capacity-exceeded condition after a single full sweep whose
only effect is to clear the reference bits of the visited frames (pin
counts, validity, dirty bits, owners, pool, index, file system, log
and the clock hand are unchanged); and whenever at least one frame has
`pinCount = 0`, `allocBuf` succeeds in returning a frame. -/
theorem allocBuf_capacity_spec (st : BufState) (hWF : WF st) :
    ((∀ i, i < st.numBufs → (st.desc i).valid = true ∧ 0 < (st.desc i).pinCnt) →
      ∃ st', BufMgr.allocBuf st = (.error .bufferExceeded, st') ∧
        st'.numBufs = st.numBufs ∧ st'.bufPool = st.bufPool ∧
        st'.hashTable = st.hashTable ∧ st'.fs = st.fs ∧ st'.log = st.log ∧
        st'.clockHand = st.clockHand ∧
        (∀ i, st'.desc i = st.desc i ∨
          st'.desc i = { st.desc i with refbit := false }) ∧
        (∀ i, i < st.numBufs → (st'.desc i).refbit = false)) ∧
    ((∃ i, i < st.numBufs ∧ (st.desc i).pinCnt = 0) →
      ∃ v st', BufMgr.allocBuf st = (.ok v, st')) := by
  obtain ⟨hN, hlen, hplen, hhand⟩ := hWF
  constructor
  · intro hall
    obtain ⟨st1, hsw⟩ := allocSweep_all_pinned_exhausts st.numBufs st hall hN
    obtain ⟨s1, s2, s3, s4, s5, s6, s7⟩ := allocSweep_exhausted_shape _ _ _ hsw
    have hhand1 : st1.clockHand = st.clockHand := by
      rw [allocSweep_exhausted_clockHand _ _ _ hsw hN hhand, Nat.add_mod_right]
      exact Nat.mod_eq_of_lt hhand
    have hrefb : ∀ i, i < st.numBufs → (st1.desc i).refbit = false := by
      intro i hi
      obtain ⟨j0, hj01, hj02, hj0e⟩ :=
        exists_step_to st.clockHand i st.numBufs hhand hi
      have hrb := allocSweep_exhausted_refbit _ _ _ hsw j0 hj01 hj02
      rw [hj0e] at hrb
      exact hrb
    have hnone : BufMgr.someUnpinned st1 = false := by
      rw [BufMgr.someUnpinned, List.any_eq_false]
      intro d hd
      obtain ⟨k, hk, hdk⟩ := List.mem_iff_getElem.mp hd
      have hkN : k < st.numBufs := by rw [← hlen, ← s6]; exact hk
      have hdese : st1.desc k = d := by
        rw [BufState.desc, List.getD_eq_getElem?_getD,
          List.getElem?_eq_getElem hk, hdk]
        rfl
      have hpk : 0 < (st1.desc k).pinCnt := by
        rcases s7 k with hc | hc <;> rw [hc] <;> exact (hall k hkN).2
      rw [hdese] at hpk
      simp [Nat.pos_iff_ne_zero.mp hpk]
    refine ⟨st1, ?_, s1, s2, s3, s4, s5, hhand1, s7, hrefb⟩
    unfold BufMgr.allocBuf BufMgr.allocBufLoop
    simp only [hsw]
    rw [if_neg (by simp [hnone])]
  · intro hfree
    exact allocBuf_succeeds st ⟨hN, hlen, hplen, hhand⟩ hfree

/-- Witness for the amended C2 at `stAllPinned` (all frames valid and
pinned): the error is raised, the index is untouched and the reference
bit ends cleared. -/
theorem allocBuf_capacity_spec_witness :
    ∃ st', BufMgr.allocBuf stAllPinned = (.error .bufferExceeded, st') ∧
      st'.hashTable = stAllPinned.hashTable ∧
      (∀ i, i < 1 → (st'.desc i).refbit = false) := by
  obtain ⟨st', h1, _, _, h4, _, _, _, _, h9⟩ :=
    (allocBuf_capacity_spec stAllPinned (by decide)).1 (by decide)
  exact ⟨st', h1, h4, h9⟩

/-! ### C4: fetch of a non-resident page (miss path) -/

/-- Counterexample to C4 as stated: the claim (and §4.3) puts victim
selection BEFORE the file read, but `readPage` issues the read first.
On `stVictim` the eviction write-back of the dirty victim is observed
AFTER the read in the I/O log, while the spec-order model
`readPageSpecOrder` produces them the other way round; the two runs
differ (exactly in the log). -/
theorem readPage_order_counterexample :
    (BufMgr.readPage 7 3 stVictim).2.log =
      [.read 7 3, .write 9 5 ⟨5, 99⟩] ∧
    (readPageSpecOrder 7 3 stVictim).2.log =
      [.write 9 5 ⟨5, 99⟩, .read 7 3] ∧
    BufMgr.readPage 7 3 stVictim ≠ readPageSpecOrder 7 3 stVictim := by decide

/-- C4 amended: on a Frame Index miss, `readPage` FIRST reads the page
content from the file (logging the read before any eviction
write-back), THEN obtains a victim frame via `allocBuf`, stores the
content into that frame, inserts (file, pageId) → frame into the
index, and applies `Set()` — leaving the frame valid with
`pinCount = 1` — and returns that frame. -/
theorem readPage_miss_spec (f : FileId) (p : PageId) (st : BufState)
    (pg : Page) (id : Nat) (st1 : BufState)
    (hmiss : hashLookup st.hashTable f p = none)
    (hread : st.fs.readPage f p = some pg)
    (halloc : BufMgr.allocBuf { st with log := st.log ++ [.read f p] }
      = (.ok id, st1))
    (hlen1 : id < st1.bufDescTable.length)
    (hplen1 : id < st1.bufPool.length)
    (hins : hashLookup st1.hashTable f p = none) :
    ∃ stf, BufMgr.readPage f p st = (.ok id, stf) ∧
      stf.desc id = ((st1.desc id).descSet f p) ∧
      (stf.desc id).pinCnt = 1 ∧ (stf.desc id).valid = true ∧
      (stf.desc id).dirty = false ∧
      stf.pool id = pg ∧
      hashLookup stf.hashTable f p = some id ∧
      (∀ g q, (g, q) ≠ (f, p) →
        hashLookup stf.hashTable g q = hashLookup st1.hashTable g q) ∧
      (∀ j, j ≠ id → stf.desc j = st1.desc j) ∧
      stf.fs = st1.fs ∧ stf.log = st1.log := by
  have hstep : BufMgr.readPage f p st =
      (.ok id,
        BufState.setDesc
          { BufState.setPool st1 id pg with
            hashTable := ((f, p), id) :: st1.hashTable }
          id ((st1.desc id).descSet f p)) := by
    unfold BufMgr.readPage
    rw [hmiss, hread]
    simp only [halloc]
    rw [if_neg (by simp [BufState.setPool, hins])]
    exact rfl
  refine ⟨_, hstep, ?_, ?_, ?_, ?_, ?_, ?_, ?_, ?_, rfl, rfl⟩
  · exact desc_setDesc_self _ _ _ (by simpa [BufState.setPool] using hlen1)
  · rw [desc_setDesc_self _ _ _ (by simpa [BufState.setPool] using hlen1)]
    rfl
  · rw [desc_setDesc_self _ _ _ (by simpa [BufState.setPool] using hlen1)]
    rfl
  · rw [desc_setDesc_self _ _ _ (by simpa [BufState.setPool] using hlen1)]
    rfl
  · show (BufState.setPool st1 id pg).pool id = pg
    exact pool_setPool_self _ _ _ hplen1
  · simp [hashLookup]
  · intro g q hgq
    have hne : ((f, p) : FileId × PageId) ≠ (g, q) := fun hc => hgq hc.symm
    simp [hashLookup, hne]
  · intro j hj
    exact desc_setDesc_ne _ _ _ _ (fun hc => hj hc.symm)

/-- Witness for the amended C4 on `stVictim`: fetching the non-resident
page (7, 3) returns frame 0 holding the page's content with
`pinCount 1`, and the index maps (7, 3) to it. -/
theorem readPage_miss_spec_witness :
    ∃ stf, BufMgr.readPage 7 3 stVictim = (.ok 0, stf) ∧
      (stf.desc 0).pinCnt = 1 ∧ stf.pool 0 = ⟨3, 42⟩ ∧
      hashLookup stf.hashTable 7 3 = some 0 := by
  obtain ⟨stf, h1, _, h3, _, _, h6, h7, _, _, _, _⟩ :=
    readPage_miss_spec 7 3 stVictim ⟨3, 42⟩ 0 _ rfl rfl rfl
      (by decide) (by decide) (by decide)
  exact ⟨stf, h1, h3, h6, h7⟩

/-! ### More index laws, towards flushFile and the invariants -/

theorem hashErase_sublist (tbl : List ((FileId × PageId) × Nat))
    (f : FileId) (p : PageId) : (hashErase tbl f p).Sublist tbl := by
  induction tbl with
  | nil => simp [hashErase]
  | cons e tl ih =>
    by_cases h : e.1 = (f, p)
    · simp only [hashErase, if_pos h]
      exact ih.cons e
    · simp only [hashErase, if_neg h]
      exact ih.cons₂ e

theorem mem_hashErase (tbl : List ((FileId × PageId) × Nat))
    (f : FileId) (p : PageId) (e : (FileId × PageId) × Nat)
    (h : e ∈ hashErase tbl f p) : e ∈ tbl ∧ e.1 ≠ (f, p) := by
  induction tbl with
  | nil => simp [hashErase] at h
  | cons a tl ih =>
    by_cases ha : a.1 = (f, p)
    · rw [hashErase, if_pos ha] at h
      obtain ⟨h1, h2⟩ := ih h
      exact ⟨List.mem_cons_of_mem a h1, h2⟩
    · rw [hashErase, if_neg ha] at h
      rcases List.mem_cons.mp h with he | he
      · subst he
        exact ⟨List.mem_cons_self _ _, ha⟩
      · obtain ⟨h1, h2⟩ := ih he
        exact ⟨List.mem_cons_of_mem a h1, h2⟩

theorem hashLookup_some_mem (tbl : List ((FileId × PageId) × Nat))
    (f : FileId) (p : PageId) (i : Nat)
    (h : hashLookup tbl f p = some i) : ((f, p), i) ∈ tbl := by
  induction tbl with
  | nil => simp [hashLookup] at h
  | cons a tl ih =>
    by_cases ha : a.1 = (f, p)
    · rw [hashLookup, if_pos ha] at h
      cases h
      have hea : ((f, p), a.2) = a := by rw [← ha]
      rw [hea]
      exact List.mem_cons_self _ _
    · rw [hashLookup, if_neg ha] at h
      exact List.mem_cons_of_mem a (ih h)

theorem hashLookup_none_iff (tbl : List ((FileId × PageId) × Nat))
    (f : FileId) (p : PageId) :
    hashLookup tbl f p = none ↔ ∀ e ∈ tbl, e.1 ≠ (f, p) := by
  induction tbl with
  | nil => simp [hashLookup]
  | cons a tl ih =>
    by_cases ha : a.1 = (f, p) <;> simp [hashLookup, ha, ih]

theorem nodup_hashErase (tbl : List ((FileId × PageId) × Nat))
    (f : FileId) (p : PageId) (h : (tbl.map Prod.fst).Nodup) :
    ((hashErase tbl f p).map Prod.fst).Nodup :=
  List.Nodup.sublist (List.Sublist.map Prod.fst (hashErase_sublist tbl f p)) h

@[simp] theorem hashTable_setDesc (st : BufState) (i : Nat) (d : BufDesc) :
    (st.setDesc i d).hashTable = st.hashTable := rfl

@[simp] theorem numBufs_setDesc (st : BufState) (i : Nat) (d : BufDesc) :
    (st.setDesc i d).numBufs = st.numBufs := rfl

@[simp] theorem bufPool_setDesc (st : BufState) (i : Nat) (d : BufDesc) :
    (st.setDesc i d).bufPool = st.bufPool := rfl

@[simp] theorem clockHand_setDesc (st : BufState) (i : Nat) (d : BufDesc) :
    (st.setDesc i d).clockHand = st.clockHand := rfl

@[simp] theorem fs_setDesc (st : BufState) (i : Nat) (d : BufDesc) :
    (st.setDesc i d).fs = st.fs := rfl

@[simp] theorem log_setDesc (st : BufState) (i : Nat) (d : BufDesc) :
    (st.setDesc i d).log = st.log := rfl

@[simp] theorem length_setDesc (st : BufState) (i : Nat) (d : BufDesc) :
    (st.setDesc i d).bufDescTable.length = st.bufDescTable.length :=
  List.length_set _ _ _

@[simp] theorem desc_setPool (st : BufState) (i : Nat) (pg : Page) (j : Nat) :
    (st.setPool i pg).desc j = st.desc j := rfl

@[simp] theorem hashTable_setPool (st : BufState) (i : Nat) (pg : Page) :
    (st.setPool i pg).hashTable = st.hashTable := rfl

@[simp] theorem numBufs_setPool (st : BufState) (i : Nat) (pg : Page) :
    (st.setPool i pg).numBufs = st.numBufs := rfl

@[simp] theorem numBufs_writeFrame (st : BufState) (f : FileId) (i : Nat) :
    (st.writeFrame f i).numBufs = st.numBufs := rfl

@[simp] theorem bufPool_writeFrame (st : BufState) (f : FileId) (i : Nat) :
    (st.writeFrame f i).bufPool = st.bufPool := rfl

@[simp] theorem clockHand_writeFrame (st : BufState) (f : FileId) (i : Nat) :
    (st.writeFrame f i).clockHand = st.clockHand := rfl

@[simp] theorem numBufs_advanceClock (st : BufState) :
    (BufMgr.advanceClock st).numBufs = st.numBufs := rfl

@[simp] theorem bufPool_advanceClock (st : BufState) :
    (BufMgr.advanceClock st).bufPool = st.bufPool := rfl

@[simp] theorem bufDescTable_advanceClock (st : BufState) :
    (BufMgr.advanceClock st).bufDescTable = st.bufDescTable := rfl

@[simp] theorem bufDescTable_writeFrame (st : BufState) (f : FileId) (i : Nat) :
    (st.writeFrame f i).bufDescTable = st.bufDescTable := rfl

@[simp] theorem bufDescTable_setPool (st : BufState) (i : Nat) (pg : Page) :
    (st.setPool i pg).bufDescTable = st.bufDescTable := rfl

@[simp] theorem log_advanceClock (st : BufState) :
    (BufMgr.advanceClock st).log = st.log := rfl

@[simp] theorem log_writeFrame (st : BufState) (f : FileId) (i : Nat) :
    (st.writeFrame f i).log
      = st.log ++ [IOEvent.write f (st.pool i).page_number (st.pool i)] := rfl

@[simp] theorem fs_advanceClock (st : BufState) :
    (BufMgr.advanceClock st).fs = st.fs := rfl

/-- The §3 invariants only mention frame identities (file, pageNo,
valid), the cleanliness of invalid frames, and the index; they
transfer along any state change that preserves those. -/
theorem BufInv_congr (st st' : BufState) (hInv : BufInv st)
    (hN : st'.numBufs = st.numBufs)
    (hhash : st'.hashTable = st.hashTable)
    (hdesc : ∀ i, i < st.numBufs →
      (st'.desc i).file = (st.desc i).file ∧
      (st'.desc i).pageNo = (st.desc i).pageNo ∧
      (st'.desc i).valid = (st.desc i).valid ∧
      ((st'.desc i).valid = false → (st'.desc i).pinCnt = 0 ∧
        (st'.desc i).dirty = false)) :
    BufInv st' := by
  obtain ⟨a, b, c, d⟩ := hInv
  refine ⟨?_, ?_, ?_, ?_⟩
  · intro i hi hval
    rw [hN] at hi
    obtain ⟨hf, _, hv, hclean⟩ := hdesc i hi
    obtain ⟨h1, h2⟩ := hclean hval
    refine ⟨h1, h2, ?_⟩
    rw [hf]
    exact (a i hi (by rw [← hv]; exact hval)).2.2
  · intro e he
    rw [hhash] at he
    obtain ⟨b1, b2, b3, b4⟩ := b e he
    obtain ⟨hf, hp, hv, _⟩ := hdesc e.2 b1
    rw [hN]
    exact ⟨b1, by rw [hv]; exact b2, by rw [hf]; exact b3, by rw [hp]; exact b4⟩
  · intro i hi hval
    rw [hN] at hi
    obtain ⟨hf, hp, hv, _⟩ := hdesc i hi
    rw [hv] at hval
    obtain ⟨c1, c2⟩ := c i hi hval
    rw [hf, hp, hhash]
    exact ⟨c1, c2⟩
  · rw [hhash]
    exact d

/-- Clearing a valid frame and erasing its index entry preserves the
§3 invariants. -/
theorem BufInv_eraseClear (st : BufState) (f : FileId) (k : Nat)
    (hlen : st.bufDescTable.length = st.numBufs)
    (hInv : BufInv st)
    (hk : k < st.numBufs)
    (hown : (st.desc k).file = some f)
    (hval : (st.desc k).valid = true) :
    BufInv (BufState.setDesc
      { st with hashTable := hashErase st.hashTable f ((st.desc k).pageNo) }
      k ((st.desc k).descClear)) := by
  obtain ⟨a, b, c, d⟩ := hInv
  have hklen : k < st.bufDescTable.length := by rw [hlen]; exact hk
  have hself : (BufState.setDesc
      { st with hashTable := hashErase st.hashTable f ((st.desc k).pageNo) }
      k ((st.desc k).descClear)).desc k = (st.desc k).descClear :=
    desc_setDesc_self _ _ _ hklen
  have hne : ∀ j, j ≠ k → (BufState.setDesc
      { st with hashTable := hashErase st.hashTable f ((st.desc k).pageNo) }
      k ((st.desc k).descClear)).desc j = st.desc j :=
    fun j hj => desc_setDesc_ne _ _ _ _ (fun hc => hj hc.symm)
  have hkself := c k hk hval
  have hklookup : hashLookup st.hashTable f ((st.desc k).pageNo) = some k := by
    have hl2 := hkself.2
    rw [hown] at hl2
    simpa using hl2
  refine ⟨?_, ?_, ?_, ?_⟩
  · intro i hi hval'
    by_cases hik : i = k
    · subst hik
      rw [hself]
      exact ⟨rfl, rfl, rfl⟩
    · rw [hne i hik] at hval' ⊢
      exact a i hi hval'
  · intro e he
    obtain ⟨hmem, hkey⟩ := mem_hashErase _ _ _ _ he
    obtain ⟨b1, b2, b3, b4⟩ := b e hmem
    have hek : e.2 ≠ k := by
      intro hc
      rw [hc] at b3 b4
      rw [hown] at b3
      apply hkey
      cases b3
      rw [b4]
    rw [hne e.2 hek]
    exact ⟨b1, b2, b3, b4⟩
  · intro i hi hval'
    by_cases hik : i = k
    · subst hik
      rw [hself] at hval'
      cases hval'
    · rw [hne i hik] at hval' ⊢
      obtain ⟨c1, c2⟩ := c i hi hval'
      refine ⟨c1, ?_⟩
      simp only [hashTable_setDesc]
      rw [hashLookup_erase_ne]
      · exact c2
      · intro hc
        have hc1 : (st.desc i).file.getD 0 = f := congrArg Prod.fst hc
        have hc2 : (st.desc i).pageNo = (st.desc k).pageNo := congrArg Prod.snd hc
        have hkeyi := c2
        rw [hc1, hc2, hklookup] at hkeyi
        cases hkeyi
        exact hik rfl
  · exact nodup_hashErase _ _ _ d

/-- Inserting a fresh key for an invalid frame and then applying
`Set()` to it preserves the §3 invariants. -/
theorem BufInv_insert_descSet (st : BufState) (f : FileId) (p : PageId)
    (v : Nat) (hlen : st.bufDescTable.length = st.numBufs)
    (hInv : BufInv st)
    (hmiss : hashLookup st.hashTable f p = none)
    (hv : v < st.numBufs)
    (hinvalid : (st.desc v).valid = false) :
    BufInv (BufState.setDesc { st with hashTable := ((f, p), v) :: st.hashTable }
      v ((st.desc v).descSet f p)) := by
  obtain ⟨a, b, c, d⟩ := hInv
  have hvlen : v < st.bufDescTable.length := by rw [hlen]; exact hv
  have hself : (BufState.setDesc
      { st with hashTable := ((f, p), v) :: st.hashTable }
      v ((st.desc v).descSet f p)).desc v = (st.desc v).descSet f p :=
    desc_setDesc_self _ _ _ hvlen
  have hne : ∀ j, j ≠ v → (BufState.setDesc
      { st with hashTable := ((f, p), v) :: st.hashTable }
      v ((st.desc v).descSet f p)).desc j = st.desc j :=
    fun j hj => desc_setDesc_ne _ _ _ _ (fun hc => hj hc.symm)
  refine ⟨?_, ?_, ?_, ?_⟩
  · intro i hi hval'
    by_cases hiv : i = v
    · subst hiv
      rw [hself] at hval'
      cases hval'
    · rw [hne i hiv] at hval' ⊢
      exact a i hi hval'
  · intro e he
    rcases List.mem_cons.mp he with he1 | he1
    · subst he1
      rw [hself]
      exact ⟨hv, rfl, rfl, rfl⟩
    · obtain ⟨b1, b2, b3, b4⟩ := b e he1
      have hev : e.2 ≠ v := by
        intro hc
        rw [hc, hinvalid] at b2
        cases b2
      rw [hne e.2 hev]
      exact ⟨b1, b2, b3, b4⟩
  · intro i hi hval'
    by_cases hiv : i = v
    · subst hiv
      rw [hself]
      refine ⟨rfl, ?_⟩
      simp only [hashTable_setDesc, BufDesc.descSet]
      simp [hashLookup]
    · rw [hne i hiv] at hval' ⊢
      obtain ⟨c1, c2⟩ := c i hi hval'
      refine ⟨c1, ?_⟩
      simp only [hashTable_setDesc]
      rw [hashLookup]
      rw [if_neg ?_]
      · exact c2
      · show ¬((f, p) = ((st.desc i).file.getD 0, (st.desc i).pageNo))
        intro hc
        have hc1 : f = (st.desc i).file.getD 0 := congrArg Prod.fst hc
        have hc2 : p = (st.desc i).pageNo := congrArg Prod.snd hc
        have hkeyi := c2
        rw [← hc1, ← hc2, hmiss] at hkeyi
        cases hkeyi
  · have hkeys : ∀ e ∈ st.hashTable, e.1 ≠ (f, p) :=
      (hashLookup_none_iff _ _ _).mp hmiss
    refine List.Nodup.cons ?_ d
    intro hc
    obtain ⟨e, hemem, heq⟩ := List.mem_map.mp hc
    exact hkeys e hemem heq

theorem refbitRel_trans (d1 d2 d3 : BufDesc)
    (h12 : d2 = d1 ∨ d2 = { d1 with refbit := false })
    (h23 : d3 = d2 ∨ d3 = { d2 with refbit := false }) :
    d3 = d1 ∨ d3 = { d1 with refbit := false } := by
  rcases h12 with h | h
  · rw [h] at h23
    exact h23
  · rcases h23 with g | g
    · rw [h] at g
      right
      exact g
    · rw [h] at g
      right
      exact g.trans rfl

/-- A successful sweep preserves the §3 invariants and well-formedness;
the selected frame was unpinned beforehand and is invalid afterwards;
no other frame changes except for cleared reference bits; the pool is
untouched, no index entry appears, and the log only grows. -/
theorem allocSweep_selected_inv : ∀ (n : Nat) (st : BufState) (v : Nat)
    (st' : BufState), BufMgr.allocSweep n st = .selected v st' →
    WF st → BufInv st →
    BufInv st' ∧ WF st' ∧
    st'.numBufs = st.numBufs ∧
    st'.bufDescTable.length = st.bufDescTable.length ∧
    st'.bufPool = st.bufPool ∧
    v < st.numBufs ∧
    (st'.desc v).valid = false ∧
    (st.desc v).pinCnt = 0 ∧
    (∀ j, j ≠ v → st'.desc j = st.desc j ∨
      st'.desc j = { st.desc j with refbit := false }) ∧
    (∀ g q, hashLookup st.hashTable g q = none →
      hashLookup st'.hashTable g q = none) ∧
    (∃ t, st'.log = st.log ++ t)
  | 0, st, v, st', h, _, _ => by
    simp only [BufMgr.allocSweep] at h
    cases h
  | n + 1, st, v, st', h, hWF, hInv => by
    obtain ⟨hN, hlen, hplen, hhand⟩ := hWF
    obtain ⟨a, b, c, d⟩ := hInv
    have hposN : (st.clockHand + 1) % st.numBufs < st.numBufs := Nat.mod_lt _ hN
    have hposlen : (st.clockHand + 1) % st.numBufs < st.bufDescTable.length := by
      rw [hlen]; exact hposN
    simp only [BufMgr.allocSweep, desc_advanceClock, clockHand_advanceClock] at h
    by_cases hv : (st.desc ((st.clockHand + 1) % st.numBufs)).valid
    · rw [if_neg (by simp [hv])] at h
      by_cases hr : (st.desc ((st.clockHand + 1) % st.numBufs)).refbit
      · rw [if_pos hr] at h
        have hWFmid : WF ((BufMgr.advanceClock st).setDesc
            ((st.clockHand + 1) % st.numBufs)
            { st.desc ((st.clockHand + 1) % st.numBufs) with refbit := false }) := by
          refine ⟨hN, ?_, hplen, hposN⟩
          simpa using hlen
        have hInvmid : BufInv ((BufMgr.advanceClock st).setDesc
            ((st.clockHand + 1) % st.numBufs)
            { st.desc ((st.clockHand + 1) % st.numBufs) with refbit := false }) := by
          refine BufInv_congr st _ ⟨a, b, c, d⟩ rfl rfl ?_
          intro i hi
          by_cases hip : i = (st.clockHand + 1) % st.numBufs
          · rw [hip]
            rw [desc_setDesc_self (BufMgr.advanceClock st)
              ((st.clockHand + 1) % st.numBufs)
              { st.desc ((st.clockHand + 1) % st.numBufs) with refbit := false }
              hposlen]
            exact ⟨rfl, rfl, rfl, fun hcon => by
              rw [show ({ st.desc ((st.clockHand + 1) % st.numBufs) with
                  refbit := false } : BufDesc).valid
                  = (st.desc ((st.clockHand + 1) % st.numBufs)).valid from rfl] at hcon
              obtain ⟨a1, a2, _⟩ := a _ hposN hcon
              exact ⟨a1, a2⟩⟩
          · rw [desc_setDesc_ne _ _ _ _ (fun hcon => hip hcon.symm)]
            exact ⟨rfl, rfl, rfl, fun hcon => by
              obtain ⟨a1, a2, _⟩ := a i hi hcon
              exact ⟨a1, a2⟩⟩
        obtain ⟨i1, i2, i3, i4, i5, i6, i7, i8, i9, i10, i11⟩ :=
          allocSweep_selected_inv n _ v st' h hWFmid hInvmid
        have hmidrel : ∀ j, ((BufMgr.advanceClock st).setDesc
            ((st.clockHand + 1) % st.numBufs)
            { st.desc ((st.clockHand + 1) % st.numBufs) with refbit := false }).desc j
            = st.desc j ∨
            ((BufMgr.advanceClock st).setDesc
            ((st.clockHand + 1) % st.numBufs)
            { st.desc ((st.clockHand + 1) % st.numBufs) with refbit := false }).desc j
            = { st.desc j with refbit := false } := by
          intro j
          by_cases hjp : j = (st.clockHand + 1) % st.numBufs
          · subst hjp
            right
            exact desc_setDesc_self _ _ _ hposlen
          · left
            exact desc_setDesc_ne _ _ _ _ (fun hcon => hjp hcon.symm)
        refine ⟨i1, i2, i3, by rw [i4]; simp, i5, i6, i7, ?_, ?_, ?_, ?_⟩
        · rcases hmidrel v with hc | hc <;> rw [hc] at i8 <;> exact i8
        · intro j hj
          exact refbitRel_trans _ _ _ (hmidrel j) (i9 j hj)
        · intro g q hnone
          exact i10 g q hnone
        · exact i11
      · rw [if_neg (by simp [Bool.not_eq_true] at hr ⊢; exact hr)] at h
        by_cases hp : (st.desc ((st.clockHand + 1) % st.numBufs)).pinCnt > 0
        · rw [if_pos hp] at h
          have hWFmid : WF (BufMgr.advanceClock st) := ⟨hN, hlen, hplen, hposN⟩
          have hInvmid : BufInv (BufMgr.advanceClock st) := ⟨a, b, c, d⟩
          obtain ⟨i1, i2, i3, i4, i5, i6, i7, i8, i9, i10, i11⟩ :=
            allocSweep_selected_inv n _ v st' h hWFmid hInvmid
          exact ⟨i1, i2, i3, i4, i5, i6, i7, i8, i9, i10, i11⟩
        · rw [if_neg hp] at h
          rw [Bool.not_eq_true] at hr
          have hpz : (st.desc ((st.clockHand + 1) % st.numBufs)).pinCnt = 0 := by
            omega
          obtain ⟨c1, c2⟩ := c _ hposN hv
          cases hfile : (st.desc ((st.clockHand + 1) % st.numBufs)).file with
          | none =>
            rw [hfile] at c1
            cases c1
          | some f =>
            rw [hfile] at c2
            simp only [Option.getD_some] at c2
            rw [hfile] at h
            by_cases hd : (st.desc ((st.clockHand + 1) % st.numBufs)).dirty
            · rw [if_pos hd] at h
              simp only [hashTable_writeFrame, hashTable_advanceClock] at h
              rw [c2] at h
              injection h with h1 h2
              subst h1
              subst h2
              have hInv' := BufInv_eraseClear
                ((BufMgr.advanceClock st).writeFrame f
                  ((st.clockHand + 1) % st.numBufs))
                f ((st.clockHand + 1) % st.numBufs) hlen ⟨a, b, c, d⟩ hposN hfile hv
              refine ⟨hInv', ⟨hN, by simp [hlen], hplen, hposN⟩, rfl, by simp, rfl,
                hposN, ?_, hpz, ?_, ?_, ⟨[.write f
                  (st.pool ((st.clockHand + 1) % st.numBufs)).page_number
                  (st.pool ((st.clockHand + 1) % st.numBufs))], rfl⟩⟩
              · rw [desc_setDesc_self]
                · rfl
                · exact hposlen
              · intro j hj
                left
                exact desc_setDesc_ne _ _ _ _ (fun hcon => hj hcon.symm)
              · intro g q hnone
                simp only [hashTable_setDesc]
                by_cases hkey : (g, q) = (f, (st.desc ((st.clockHand + 1) % st.numBufs)).pageNo)
                · have hg : g = f := congrArg Prod.fst hkey
                  have hq : q = (st.desc ((st.clockHand + 1) % st.numBufs)).pageNo :=
                    congrArg Prod.snd hkey
                  rw [hg, hq]
                  exact hashLookup_erase_self _ _ _
                · rw [hashLookup_erase_ne _ _ _ _ _ hkey]
                  exact hnone
            · rw [if_neg hd] at h
              simp only [hashTable_advanceClock] at h
              rw [c2] at h
              injection h with h1 h2
              subst h1
              subst h2
              have hInv' := BufInv_eraseClear (BufMgr.advanceClock st)
                f ((st.clockHand + 1) % st.numBufs) hlen ⟨a, b, c, d⟩ hposN hfile hv
              refine ⟨hInv', ⟨hN, by simp [hlen], hplen, hposN⟩, rfl, by simp, rfl,
                hposN, ?_, hpz, ?_, ?_, ⟨[], by simp⟩⟩
              · rw [desc_setDesc_self]
                · rfl
                · exact hposlen
              · intro j hj
                left
                exact desc_setDesc_ne _ _ _ _ (fun hcon => hj hcon.symm)
              · intro g q hnone
                simp only [hashTable_setDesc]
                by_cases hkey : (g, q) = (f, (st.desc ((st.clockHand + 1) % st.numBufs)).pageNo)
                · have hg : g = f := congrArg Prod.fst hkey
                  have hq : q = (st.desc ((st.clockHand + 1) % st.numBufs)).pageNo :=
                    congrArg Prod.snd hkey
                  rw [hg, hq]
                  exact hashLookup_erase_self _ _ _
                · rw [hashLookup_erase_ne _ _ _ _ _ hkey]
                  exact hnone
    · rw [if_pos (by simp [Bool.not_eq_true] at hv ⊢; exact hv)] at h
      rw [Bool.not_eq_true] at hv
      injection h with h1 h2
      subst h1
      subst h2
      refine ⟨⟨a, b, c, d⟩, ⟨hN, hlen, hplen, hposN⟩, rfl, rfl, rfl, hposN, hv,
        (a _ hposN hv).1, fun j _ => Or.inl rfl, fun g q hnone => hnone,
        ⟨[], by simp⟩⟩

/-- `allocBuf` (any outcome) preserves the §3 invariants and
well-formedness; it never touches the pool, never adds index entries,
only appends to the log; a frame it returns was unpinned and ends
invalid (ready for reuse); frames pinned at entry keep everything but
possibly their reference bit. -/
theorem allocBuf_inv (st : BufState) (hWF : WF st) (hInv : BufInv st) :
    BufInv (BufMgr.allocBuf st).2 ∧ WF (BufMgr.allocBuf st).2 ∧
    (BufMgr.allocBuf st).2.numBufs = st.numBufs ∧
    (BufMgr.allocBuf st).2.bufDescTable.length = st.bufDescTable.length ∧
    (BufMgr.allocBuf st).2.bufPool = st.bufPool ∧
    (∀ g q, hashLookup st.hashTable g q = none →
      hashLookup (BufMgr.allocBuf st).2.hashTable g q = none) ∧
    (∃ t, (BufMgr.allocBuf st).2.log = st.log ++ t) ∧
    (∀ v, (BufMgr.allocBuf st).1 = .ok v →
      ((BufMgr.allocBuf st).2.desc v).valid = false ∧ v < st.numBufs ∧
      (st.desc v).pinCnt = 0) ∧
    (∀ j, 0 < (st.desc j).pinCnt →
      (BufMgr.allocBuf st).2.desc j = st.desc j ∨
      (BufMgr.allocBuf st).2.desc j = { st.desc j with refbit := false }) := by
  obtain ⟨hN, hlen, hplen, hhand⟩ := hWF
  cases hsw : BufMgr.allocSweep st.numBufs st with
  | selected v1 st1 =>
    have hout : BufMgr.allocBuf st = (.ok v1, st1) := by
      unfold BufMgr.allocBuf BufMgr.allocBufLoop
      rw [hsw]
    obtain ⟨i1, i2, i3, i4, i5, i6, i7, i8, i9, i10, i11⟩ :=
      allocSweep_selected_inv _ _ _ _ hsw ⟨hN, hlen, hplen, hhand⟩ hInv
    rw [hout]
    refine ⟨i1, i2, i3, i4, i5, i10, i11, ?_, ?_⟩
    · intro v hv1
      have hv1' : v1 = v := by
        injection hv1
      subst hv1'
      exact ⟨i7, i6, i8⟩
    · intro j hpj
      have hjv : j ≠ v1 := by
        intro hc
        rw [hc, i8] at hpj
        omega
      exact i9 j hjv
  | exhausted st1 =>
    obtain ⟨s1, s2, s3, s4, s5, s6, s7⟩ := allocSweep_exhausted_shape _ _ _ hsw
    have hhand1 : st1.clockHand = st.clockHand := by
      rw [allocSweep_exhausted_clockHand _ _ _ hsw hN hhand, Nat.add_mod_right]
      exact Nat.mod_eq_of_lt hhand
    have hWF1 : WF st1 := by
      refine ⟨by rw [s1]; exact hN, ?_, ?_, ?_⟩
      · rw [s6, hlen, s1]
      · rw [s2, hplen, s1]
      · rw [hhand1, s1]
        exact hhand
    have hInv1 : BufInv st1 := by
      refine BufInv_congr st st1 hInv s1 s3 ?_
      intro i hi
      rcases s7 i with hc | hc <;> rw [hc]
      · exact ⟨rfl, rfl, rfl, fun hcon => by
          obtain ⟨a1, a2, _⟩ := hInv.1 i hi hcon
          exact ⟨a1, a2⟩⟩
      · exact ⟨rfl, rfl, rfl, fun hcon => by
          have hcon' : (st.desc i).valid = false := hcon
          obtain ⟨a1, a2, _⟩ := hInv.1 i hi hcon'
          exact ⟨a1, a2⟩⟩
    have hpinrel : ∀ j, (st1.desc j).pinCnt = (st.desc j).pinCnt := by
      intro j
      rcases s7 j with hc | hc <;> rw [hc]
    cases hunp : BufMgr.someUnpinned st1 with
    | false =>
      have hout : BufMgr.allocBuf st = (.error .bufferExceeded, st1) := by
        unfold BufMgr.allocBuf BufMgr.allocBufLoop
        simp only [hsw]
        rw [if_neg (by simp [hunp])]
      rw [hout]
      refine ⟨hInv1, hWF1, s1, s6, s2, ?_, ⟨[], by simp [s5]⟩, ?_, ?_⟩
      · intro g q hnone
        rw [s3]
        exact hnone
      · intro v hv1
        cases hv1
      · intro j _
        exact s7 j
    | true =>
      cases hsw2 : BufMgr.allocSweep st1.numBufs st1 with
      | selected v2 st2 =>
        have hout : BufMgr.allocBuf st = (.ok v2, st2) := by
          unfold BufMgr.allocBuf BufMgr.allocBufLoop
          simp only [hsw]
          rw [if_pos hunp]
          unfold BufMgr.allocBufLoop
          simp only [hsw2]
        obtain ⟨i1, i2, i3, i4, i5, i6, i7, i8, i9, i10, i11⟩ :=
          allocSweep_selected_inv _ _ _ _ hsw2 hWF1 hInv1
        rw [hout]
        refine ⟨i1, i2, by rw [i3, s1], by rw [i4, s6], by rw [i5, s2], ?_,
          ?_, ?_, ?_⟩
        · intro g q hnone
          refine i10 g q ?_
          rw [s3]
          exact hnone
        · obtain ⟨t, ht⟩ := i11
          exact ⟨t, by rw [ht, s5]⟩
        · intro v hv1
          have hv1' : v2 = v := by injection hv1
          subst hv1'
          refine ⟨i7, by rw [← s1]; exact i6, ?_⟩
          rw [← hpinrel]
          exact i8
        · intro j hpj
          have hpj1 : 0 < (st1.desc j).pinCnt := by
            rw [hpinrel]
            exact hpj
          have hjv : j ≠ v2 := by
            intro hc
            rw [hc, i8] at hpj1
            omega
          exact refbitRel_trans _ _ _ (s7 j) (i9 j hjv)
      | exhausted st2 =>
        exfalso
        obtain ⟨dd, hdmem, hdpin⟩ := List.any_eq_true.mp hunp
        obtain ⟨i, hilen, hdi⟩ := List.mem_iff_getElem.mp hdmem
        have hiN : i < st.numBufs := by
          rw [← hlen, ← s6]
          exact hilen
        have hpin1 : (st1.desc i).pinCnt = 0 := by
          have hdese : st1.desc i = dd := by
            rw [BufState.desc, List.getD_eq_getElem?_getD,
              List.getElem?_eq_getElem hilen, hdi]
            rfl
          rw [hdese]
          simpa using hdpin
        obtain ⟨j0, hj01, hj02, hj0e⟩ :=
          exists_step_to st.clockHand i st.numBufs hhand hiN
        have hrefb : (st1.desc i).refbit = false := by
          have hrb := allocSweep_exhausted_refbit _ _ _ hsw j0 hj01 hj02
          rw [hj0e] at hrb
          exact hrb
        obtain ⟨j, hj1, hj2, hje⟩ := exists_step_to st1.clockHand i st1.numBufs
          (by rw [s1, hhand1]; exact hhand) (by rw [s1]; exact hiN)
        obtain ⟨vv, stv, hselects⟩ := allocSweep_selects st1.numBufs st1
          ⟨j, hj1, hj2, by
            rw [hje]
            by_cases hval : (st1.desc i).valid
            · exact Or.inr ⟨hrefb, hpin1⟩
            · rw [Bool.not_eq_true] at hval
              exact Or.inl hval⟩
        rw [hsw2] at hselects
        cases hselects

/-- Updating one descriptor without changing its identity (file,
pageNo, valid) preserves the §3 invariants, provided an invalid result
stays clean. -/
theorem BufInv_setDesc_congr (st : BufState) (id : Nat) (d' : BufDesc)
    (hInv : BufInv st)
    (hfile : d'.file = (st.desc id).file)
    (hpage : d'.pageNo = (st.desc id).pageNo)
    (hvalid : d'.valid = (st.desc id).valid)
    (hclean : d'.valid = false → d'.pinCnt = 0 ∧ d'.dirty = false) :
    BufInv (st.setDesc id d') := by
  refine BufInv_congr st _ hInv rfl rfl ?_
  intro i hi
  by_cases hieq : i = id
  · by_cases hidlen : id < st.bufDescTable.length
    · rw [hieq, desc_setDesc_self st id d' hidlen]
      exact ⟨by rw [hfile], by rw [hpage], by rw [hvalid], hclean⟩
    · have hnoop : (st.setDesc id d').desc i = st.desc i := by
        simp [BufState.setDesc, BufState.desc,
          List.set_eq_of_length_le (Nat.le_of_not_lt hidlen)]
      rw [hnoop]
      exact ⟨rfl, rfl, rfl, fun hcon =>
        ⟨(hInv.1 i hi hcon).1, (hInv.1 i hi hcon).2.1⟩⟩
  · rw [desc_setDesc_ne st id i d' (fun hc => hieq hc.symm)]
    exact ⟨rfl, rfl, rfl, fun hcon =>
      ⟨(hInv.1 i hi hcon).1, (hInv.1 i hi hcon).2.1⟩⟩

/-- `readPage` preserves the §3 invariants and well-formedness, on
every path (hit, failed read, capacity error, successful miss). -/
theorem readPage_inv (f : FileId) (p : PageId) (st : BufState)
    (hWF : WF st) (hInv : BufInv st) :
    BufInv (BufMgr.readPage f p st).2 ∧ WF (BufMgr.readPage f p st).2 := by
  obtain ⟨hN, hlen, hplen, hhand⟩ := hWF
  cases hhit : hashLookup st.hashTable f p with
  | some id =>
    have hout : BufMgr.readPage f p st =
        (.ok id, st.setDesc id { st.desc id with
          pinCnt := (st.desc id).pinCnt + 1, refbit := true }) := by
      unfold BufMgr.readPage
      rw [hhit]
    rw [hout]
    have hval : (st.desc id).valid = true :=
      (hInv.2.1 ((f, p), id) (hashLookup_some_mem _ _ _ _ hhit)).2.1
    constructor
    · refine BufInv_setDesc_congr st id _ hInv rfl rfl rfl ?_
      intro hcon
      have hcon' : (st.desc id).valid = false := hcon
      rw [hval] at hcon'
      cases hcon' 
    · exact ⟨hN, by simp [hlen], hplen, hhand⟩
  | none =>
    cases hread : st.fs.readPage f p with
    | none =>
      have hout : BufMgr.readPage f p st = (.error (.invalidPage f p), st) := by
        unfold BufMgr.readPage
        rw [hhit, hread]
      rw [hout]
      exact ⟨hInv, hN, hlen, hplen, hhand⟩
    | some pg =>
      have hWF0 : WF { st with log := st.log ++ [IOEvent.read f p] } :=
        ⟨hN, hlen, hplen, hhand⟩
      have hInv0 : BufInv { st with log := st.log ++ [IOEvent.read f p] } :=
        hInv
      obtain ⟨m1, m2, m3, m4, m5, m6, m7, m8, m9⟩ :=
        allocBuf_inv { st with log := st.log ++ [IOEvent.read f p] } hWF0 hInv0
      cases halloc : BufMgr.allocBuf { st with log := st.log ++ [IOEvent.read f p] } with
      | mk r st2 =>
        rw [halloc] at m1 m2 m3 m4 m5 m6 m8
        cases r with
        | error e =>
          have hout : BufMgr.readPage f p st = (.error e, st2) := by
            unfold BufMgr.readPage
            rw [hhit, hread]
            simp only [halloc]
          rw [hout]
          exact ⟨m1, m2⟩
        | ok id =>
          obtain ⟨hvinv, hvN, _⟩ := m8 id rfl
          have hmiss3 : hashLookup st2.hashTable f p = none := m6 f p hhit
          have hout : BufMgr.readPage f p st =
              (.ok id,
                BufState.setDesc
                  { BufState.setPool st2 id pg with
                    hashTable := ((f, p), id) :: st2.hashTable }
                  id ((st2.desc id).descSet f p)) := by
            unfold BufMgr.readPage
            rw [hhit, hread]
            simp only [halloc]
            rw [if_neg (by simp [hmiss3])]
            exact rfl
          rw [hout]
          constructor
          · have hD := BufInv_insert_descSet (BufState.setPool st2 id pg) f p id
              (by rw [show (BufState.setPool st2 id pg).bufDescTable.length
                  = st2.bufDescTable.length from rfl, m4, hlen,
                  show (BufState.setPool st2 id pg).numBufs = st2.numBufs from rfl,
                  m3])
              m1 hmiss3 (by rw [show (BufState.setPool st2 id pg).numBufs
                  = st2.numBufs from rfl, m3]; exact hvN)
              hvinv
            exact hD
          · obtain ⟨w1, w2, w3, w4⟩ := m2
            refine ⟨w1, ?_, ?_, w4⟩
            · simpa using w2
            · simpa [BufState.setPool] using w3

/-- `unPinPage` preserves the §3 invariants and well-formedness. -/
theorem unPinPage_inv (f : FileId) (p : PageId) (dirty : Bool)
    (st : BufState) (hWF : WF st) (hInv : BufInv st) :
    BufInv (BufMgr.unPinPage f p dirty st).2 ∧
    WF (BufMgr.unPinPage f p dirty st).2 := by
  obtain ⟨hN, hlen, hplen, hhand⟩ := hWF
  cases hhit : hashLookup st.hashTable f p with
  | none =>
    have hout : BufMgr.unPinPage f p dirty st = (.ok (), st) := by
      unfold BufMgr.unPinPage
      rw [hhit]
    rw [hout]
    exact ⟨hInv, hN, hlen, hplen, hhand⟩
  | some id =>
    have hbmem := hInv.2.1 ((f, p), id) (hashLookup_some_mem _ _ _ _ hhit)
    have hval : (st.desc id).valid = true := hbmem.2.1
    have hidN : id < st.numBufs := hbmem.1
    have hidlen : id < st.bufDescTable.length := by rw [hlen]; exact hidN
    by_cases hz : (st.desc id).pinCnt = 0
    · have hout : BufMgr.unPinPage f p dirty st =
          (.error (.pageNotPinned f p id), st) := by
        unfold BufMgr.unPinPage
        rw [hhit]
        simp [hz]
      rw [hout]
      exact ⟨hInv, hN, hlen, hplen, hhand⟩
    · have hInv1 : BufInv (st.setDesc id
          { st.desc id with pinCnt := (st.desc id).pinCnt - 1 }) := by
        refine BufInv_setDesc_congr st id _ hInv rfl rfl rfl ?_
        intro hcon
        have hcon' : (st.desc id).valid = false := hcon
        rw [hval] at hcon'
        cases hcon'
      have hWF1 : WF (st.setDesc id
          { st.desc id with pinCnt := (st.desc id).pinCnt - 1 }) :=
        ⟨hN, by simp [hlen], hplen, hhand⟩
      have hout : BufMgr.unPinPage f p dirty st =
          (if dirty then
            (.ok (), (st.setDesc id
                { st.desc id with pinCnt := (st.desc id).pinCnt - 1 }).setDesc id
              { (st.setDesc id
                  { st.desc id with pinCnt := (st.desc id).pinCnt - 1 }).desc id
                with dirty := true })
          else (.ok (), st.setDesc id
            { st.desc id with pinCnt := (st.desc id).pinCnt - 1 })) := by
        unfold BufMgr.unPinPage
        rw [hhit]
        simp [hz]
      rw [hout]
      cases dirty with
      | false =>
        rw [if_neg (by simp)]
        exact ⟨hInv1, hWF1⟩
      | true =>
        rw [if_pos rfl]
        have hval1 : ((st.setDesc id
            { st.desc id with pinCnt := (st.desc id).pinCnt - 1 }).desc id).valid
            = true := by
          rw [desc_setDesc_self st id _ hidlen]
          exact hval
        constructor
        · refine BufInv_setDesc_congr _ id _ hInv1 rfl rfl rfl ?_
          intro hcon
          have hcon' : ((st.setDesc id
              { st.desc id with pinCnt := (st.desc id).pinCnt - 1 }).desc id).valid
              = false := hcon
          rw [hval1] at hcon'
          cases hcon'
        · exact ⟨hN, by simp [hlen], hplen, hhand⟩

/-- `disposePage` preserves the §3 invariants and well-formedness. -/
theorem disposePage_inv (f : FileId) (p : PageId) (st : BufState)
    (hWF : WF st) (hInv : BufInv st) :
    BufInv (BufMgr.disposePage f p st).2 ∧
    WF (BufMgr.disposePage f p st).2 := by
  obtain ⟨hN, hlen, hplen, hhand⟩ := hWF
  cases hhit : hashLookup st.hashTable f p with
  | none =>
    have hout : (BufMgr.disposePage f p st).2 =
        { st with fs := st.fs.deletePage f p,
                  log := st.log ++ [.delete f p] } := by
      unfold BufMgr.disposePage
      rw [hhit]
    rw [hout]
    exact ⟨hInv, hN, hlen, hplen, hhand⟩
  | some id =>
    have hbmem := hInv.2.1 ((f, p), id) (hashLookup_some_mem _ _ _ _ hhit)
    have hval : (st.desc id).valid = true := hbmem.2.1
    have hfile : (st.desc id).file = some f := hbmem.2.2.1
    have hpage : (st.desc id).pageNo = p := hbmem.2.2.2
    have hidN : id < st.numBufs := hbmem.1
    have hB := BufInv_eraseClear st f id hlen hInv hidN hfile hval
    have hout : (BufMgr.disposePage f p st).2 =
        { BufState.setDesc
            { st with hashTable := hashErase st.hashTable f p } id
            ((st.desc id).descClear) with
          fs := st.fs.deletePage f p,
          log := st.log ++ [.delete f p] } := by
      unfold BufMgr.disposePage
      rw [hhit]
      exact rfl
    rw [hout]
    constructor
    · rw [← hpage]
      exact hB
    · exact ⟨hN, by simp [hlen], hplen, hhand⟩

/-- `allocPage` preserves the §3 invariants and well-formedness, on
every path. -/
theorem allocPage_inv (f : FileId) (st : BufState)
    (hWF : WF st) (hInv : BufInv st) :
    BufInv (BufMgr.allocPage f st).2 ∧ WF (BufMgr.allocPage f st).2 := by
  obtain ⟨hN, hlen, hplen, hhand⟩ := hWF
  have hWF0 : WF
      { st with fs := (st.fs.allocatePage f).2,
                log := st.log ++ [IOEvent.allocate f (st.fs.allocatePage f).1] } :=
    ⟨hN, hlen, hplen, hhand⟩
  have hInv0 : BufInv
      { st with fs := (st.fs.allocatePage f).2,
                log := st.log ++ [IOEvent.allocate f (st.fs.allocatePage f).1] } :=
    hInv
  obtain ⟨m1, m2, m3, m4, m5, m6, m7, m8, m9⟩ := allocBuf_inv _ hWF0 hInv0
  cases halloc : BufMgr.allocBuf
      { st with fs := (st.fs.allocatePage f).2,
                log := st.log ++ [IOEvent.allocate f (st.fs.allocatePage f).1] } with
  | mk r st2 =>
    rw [halloc] at m1 m2 m3 m4 m5 m6 m8
    cases r with
    | error e =>
      have hout : BufMgr.allocPage f st = (.error e, st2) := by
        unfold BufMgr.allocPage
        simp only [halloc]
      rw [hout]
      exact ⟨m1, m2⟩
    | ok id =>
      obtain ⟨hvinv, hvN, _⟩ := m8 id rfl
      cases hread : st2.fs.readPage f (st.fs.allocatePage f).1 with
      | none =>
        have hout : BufMgr.allocPage f st =
            (.error (.invalidPage f (st.fs.allocatePage f).1), st2) := by
          unfold BufMgr.allocPage
          simp only [halloc]
          simp only [hread]
        rw [hout]
        exact ⟨m1, m2⟩
      | some pg =>
        have hWF2 : WF (BufState.setPool
            { st2 with log := st2.log ++ [IOEvent.read f (st.fs.allocatePage f).1] }
            id pg) := by
          obtain ⟨w1, w2, w3, w4⟩ := m2
          exact ⟨w1, by simpa using w2, by simpa [BufState.setPool] using w3, w4⟩
        have hInv2 : BufInv (BufState.setPool
            { st2 with log := st2.log ++ [IOEvent.read f (st.fs.allocatePage f).1] }
            id pg) := m1
        cases hlook : hashLookup st2.hashTable f (st.fs.allocatePage f).1 with
        | some w =>
          have hout : BufMgr.allocPage f st = (.error .hashAlreadyPresent,
              BufState.setPool
                { st2 with log := st2.log ++ [IOEvent.read f (st.fs.allocatePage f).1] }
                id pg) := by
            unfold BufMgr.allocPage
            simp only [halloc]
            simp only [hread]
            rw [if_pos (by simp [hlook])]
          rw [hout]
          exact ⟨hInv2, hWF2⟩
        | none =>
          have hout : BufMgr.allocPage f st =
              (.ok ((st.fs.allocatePage f).1, id),
                BufState.setDesc
                  { BufState.setPool
                      { st2 with log := st2.log ++ [IOEvent.read f (st.fs.allocatePage f).1] }
                      id pg with
                    hashTable := ((f, (st.fs.allocatePage f).1), id) ::
                      st2.hashTable }
                  id ((st2.desc id).descSet f (st.fs.allocatePage f).1)) := by
            unfold BufMgr.allocPage
            simp only [halloc]
            simp only [hread]
            rw [if_neg (by simp [hlook])]
            exact rfl
          rw [hout]
          constructor
          · exact BufInv_insert_descSet
              (BufState.setPool
                { st2 with log := st2.log ++ [IOEvent.read f (st.fs.allocatePage f).1] }
                id pg) f (st.fs.allocatePage f).1 id
              (by rw [show (BufState.setPool
                  { st2 with log := st2.log ++ [IOEvent.read f (st.fs.allocatePage f).1] }
                  id pg).bufDescTable.length = st2.bufDescTable.length from rfl,
                  m4, hlen]
                  exact m3.symm)
              hInv2 hlook (by rw [show (BufState.setPool
                  { st2 with log := st2.log ++ [IOEvent.read f (st.fs.allocatePage f).1] }
                  id pg).numBufs = st2.numBufs from rfl, m3]; exact hvN)
              hvinv
          · obtain ⟨w1, w2, w3, w4⟩ := hWF2
            exact ⟨w1, by simpa using w2, w3, w4⟩

/-- The `flushFile` scan preserves the §3 invariants and
well-formedness at every step, on every path. -/
theorem flushAux_inv : ∀ (ks : List Nat) (f : FileId) (st : BufState),
    WF st → BufInv st →
    BufInv (BufMgr.flushAux f ks st).2 ∧ WF (BufMgr.flushAux f ks st).2
  | [], _, st, hWF, hInv => ⟨hInv, hWF⟩
  | k :: ks, f, st, hWF, hInv => by
    obtain ⟨hN, hlen, hplen, hhand⟩ := hWF
    simp only [BufMgr.flushAux]
    by_cases hbeq : ((st.desc k).file == some f) = true
    · rw [if_pos hbeq]
      have hfeq : (st.desc k).file = some f := by simpa using hbeq
      have hklen : k < st.bufDescTable.length := by
        by_contra hcon
        have hdef : st.desc k = default := by
          simp [BufState.desc, List.getD_eq_getElem?_getD,
            List.getElem?_eq_none (Nat.le_of_not_lt hcon)]
        rw [hdef] at hfeq
        cases hfeq
      have hkN : k < st.numBufs := by rw [← hlen]; exact hklen
      by_cases hpin : (st.desc k).pinCnt > 0
      · rw [if_pos hpin]
        exact ⟨hInv, hN, hlen, hplen, hhand⟩
      · rw [if_neg hpin]
        by_cases hval : (st.desc k).valid
        · rw [if_neg (by simp [hval])]
          by_cases hd : (st.desc k).dirty
          · rw [if_pos hd]
            have heq := desc_setDesc_self (st.writeFrame f k) k
              { st.desc k with dirty := false } hklen
            have hInv1 : BufInv (BufState.setDesc (st.writeFrame f k) k
                { st.desc k with dirty := false }) := by
              refine BufInv_setDesc_congr (st.writeFrame f k) k _ hInv rfl rfl rfl ?_
              intro hcon
              have hcon' : (st.desc k).valid = false := hcon
              rw [hval] at hcon'
              cases hcon'
            have hWF1 : WF (BufState.setDesc (st.writeFrame f k) k
                { st.desc k with dirty := false }) :=
              ⟨hN, by simp [hlen], hplen, hhand⟩
            have hown1 : ((BufState.setDesc (st.writeFrame f k) k
                { st.desc k with dirty := false }).desc k).file = some f := by
              rw [heq]
              exact hfeq
            have hval1 : ((BufState.setDesc (st.writeFrame f k) k
                { st.desc k with dirty := false }).desc k).valid = true := by
              rw [heq]
              exact hval
            split
            · exact ⟨hInv1, hWF1⟩
            · have hB := BufInv_eraseClear
                (BufState.setDesc (st.writeFrame f k) k
                  { st.desc k with dirty := false }) f k
                (by simp [hlen]) hInv1 hkN hown1 hval1
              rw [heq] at hB
              exact flushAux_inv ks f _
                ⟨hN, by simpa using hlen, hplen, hhand⟩ hB
          · rw [if_neg hd]
            split
            · exact ⟨hInv, hN, hlen, hplen, hhand⟩
            · have hB := BufInv_eraseClear st f k hlen hInv hkN hfeq hval
              exact flushAux_inv ks f _
                ⟨hN, by simpa using hlen, hplen, hhand⟩ hB
        · rw [if_pos (by simp [Bool.not_eq_true] at hval ⊢; exact hval)]
          exact ⟨hInv, hN, hlen, hplen, hhand⟩
    · rw [if_neg hbeq]
      exact flushAux_inv ks f st ⟨hN, hlen, hplen, hhand⟩ hInv

theorem hashLookup_erase_none (tbl : List ((FileId × PageId) × Nat))
    (f : FileId) (p : PageId) (g : FileId) (q : PageId)
    (h : hashLookup tbl g q = none) :
    hashLookup (hashErase tbl f p) g q = none := by
  by_cases hkey : (g, q) = (f, p)
  · have hg : g = f := congrArg Prod.fst hkey
    have hq : q = p := congrArg Prod.snd hkey
    rw [hg, hq]
    exact hashLookup_erase_self _ _ _
  · rw [hashLookup_erase_ne _ _ _ _ _ hkey]
    exact h

/-- The `flushFile` scan never touches frames outside its remaining
worklist, never touches the pool, clock hand or sizes, only appends to
the log, and never adds index entries. -/
theorem flushAux_frames : ∀ (ks : List Nat) (f : FileId) (st : BufState),
    (∀ j, j ∉ ks → (BufMgr.flushAux f ks st).2.desc j = st.desc j) ∧
    (BufMgr.flushAux f ks st).2.bufPool = st.bufPool ∧
    (BufMgr.flushAux f ks st).2.numBufs = st.numBufs ∧
    (BufMgr.flushAux f ks st).2.bufDescTable.length
      = st.bufDescTable.length ∧
    (BufMgr.flushAux f ks st).2.clockHand = st.clockHand ∧
    (∃ t, (BufMgr.flushAux f ks st).2.log = st.log ++ t) ∧
    (∀ g q, hashLookup st.hashTable g q = none →
      hashLookup (BufMgr.flushAux f ks st).2.hashTable g q = none)
  | [], f, st =>
    ⟨fun _ _ => rfl, rfl, rfl, rfl, rfl, ⟨[], by simp [BufMgr.flushAux]⟩,
      fun _ _ h => h⟩
  | k :: ks, f, st => by
    simp only [BufMgr.flushAux]
    by_cases hbeq : ((st.desc k).file == some f) = true
    · rw [if_pos hbeq]
      by_cases hpin : (st.desc k).pinCnt > 0
      · rw [if_pos hpin]
        exact ⟨fun _ _ => rfl, rfl, rfl, rfl, rfl, ⟨[], by simp⟩, fun _ _ h => h⟩
      · rw [if_neg hpin]
        by_cases hval : (st.desc k).valid
        · rw [if_neg (by simp [hval])]
          by_cases hd : (st.desc k).dirty
          · rw [if_pos hd]
            split
            · refine ⟨?_, rfl, rfl, by simp, rfl,
                ⟨[.write f (st.pool k).page_number (st.pool k)], rfl⟩,
                fun _ _ h => h⟩
              intro j hj
              have hjk : j ≠ k := fun hc =>
                hj (by rw [hc]; exact List.mem_cons_self _ _)
              exact desc_setDesc_ne _ _ _ _ (fun hc => hjk hc.symm)
            · obtain ⟨i1, i2, i3, i4, i5, i6, i7⟩ := flushAux_frames ks f _
              refine ⟨?_, by rw [i2]; exact rfl, by rw [i3]; exact rfl,
                by rw [i4]; simp, by rw [i5]; exact rfl, ?_, ?_⟩
              · intro j hj
                have hjk : j ≠ k := fun hc =>
                  hj (by rw [hc]; exact List.mem_cons_self _ _)
                have hjks : j ∉ ks := fun hc => hj (List.mem_cons_of_mem _ hc)
                rw [i1 j hjks]
                rw [desc_setDesc_ne _ _ _ _ (fun hc => hjk hc.symm)]
                exact desc_setDesc_ne _ _ _ _ (fun hc => hjk hc.symm)
              · obtain ⟨t, ht⟩ := i6
                refine ⟨.write f (st.pool k).page_number (st.pool k) :: t, ?_⟩
                rw [ht]
                simp
              · intro g q hnone
                refine i7 g q ?_
                simp only [hashTable_setDesc]
                exact hashLookup_erase_none _ _ _ _ _ hnone
          · rw [if_neg hd]
            split
            · exact ⟨fun _ _ => rfl, rfl, rfl, rfl, rfl, ⟨[], by simp⟩,
                fun _ _ h => h⟩
            · obtain ⟨i1, i2, i3, i4, i5, i6, i7⟩ := flushAux_frames ks f _
              refine ⟨?_, by rw [i2]; exact rfl, by rw [i3]; exact rfl,
                by rw [i4]; simp, by rw [i5]; exact rfl, ?_, ?_⟩
              · intro j hj
                have hjk : j ≠ k := fun hc =>
                  hj (by rw [hc]; exact List.mem_cons_self _ _)
                have hjks : j ∉ ks := fun hc => hj (List.mem_cons_of_mem _ hc)
                rw [i1 j hjks]
                exact desc_setDesc_ne _ _ _ _ (fun hc => hjk hc.symm)
              · exact i6
              · intro g q hnone
                refine i7 g q ?_
                simp only [hashTable_setDesc]
                exact hashLookup_erase_none _ _ _ _ _ hnone
        · rw [if_pos (by simp [Bool.not_eq_true] at hval ⊢; exact hval)]
          exact ⟨fun _ _ => rfl, rfl, rfl, rfl, rfl, ⟨[], by simp⟩,
            fun _ _ h => h⟩
    · rw [if_neg hbeq]
      obtain ⟨i1, i2, i3, i4, i5, i6, i7⟩ := flushAux_frames ks f st
      refine ⟨?_, i2, i3, i4, i5, i6, i7⟩
      intro j hj
      exact i1 j (fun hc => hj (List.mem_cons_of_mem _ hc))

theorem flushAux_no_badBuffer : ∀ (ks : List Nat) (f : FileId) (st : BufState),
    WF st → BufInv st → ∀ (fr : Nat) (db vb rb : Bool),
    (BufMgr.flushAux f ks st).1 ≠ .error (.badBuffer fr db vb rb)
  | [], _, _, _, _, _, _, _, _ => by
    intro hcon
    cases hcon
  | k :: ks, f, st, hWF, hInv, fr, db, vb, rb => by
    obtain ⟨hN, hlen, hplen, hhand⟩ := hWF
    simp only [BufMgr.flushAux]
    by_cases hbeq : ((st.desc k).file == some f) = true
    · rw [if_pos hbeq]
      have hfeq : (st.desc k).file = some f := by simpa using hbeq
      have hklen : k < st.bufDescTable.length := by
        by_contra hcon
        have hdef : st.desc k = default := by
          simp [BufState.desc, List.getD_eq_getElem?_getD,
            List.getElem?_eq_none (Nat.le_of_not_lt hcon)]
        rw [hdef] at hfeq
        cases hfeq
      have hkN : k < st.numBufs := by rw [← hlen]; exact hklen
      have hval : (st.desc k).valid = true := by
        by_contra hcon
        rw [Bool.not_eq_true] at hcon
        have hnone := (hInv.1 k hkN hcon).2.2
        rw [hfeq] at hnone
        cases hnone
      by_cases hpin : (st.desc k).pinCnt > 0
      · rw [if_pos hpin]
        intro hcon
        cases hcon
      · rw [if_neg hpin]
        rw [if_neg (by simp [hval])]
        by_cases hd : (st.desc k).dirty
        · rw [if_pos hd]
          have heq := desc_setDesc_self (st.writeFrame f k) k
            { st.desc k with dirty := false } hklen
          have hInv1 : BufInv (BufState.setDesc (st.writeFrame f k) k
              { st.desc k with dirty := false }) := by
            refine BufInv_setDesc_congr (st.writeFrame f k) k _ hInv rfl rfl rfl ?_
            intro hcon
            have hcon' : (st.desc k).valid = false := hcon
            rw [hval] at hcon'
            cases hcon'
          have hown1 : ((BufState.setDesc (st.writeFrame f k) k
              { st.desc k with dirty := false }).desc k).file = some f := by
            rw [heq]
            exact hfeq
          have hval1 : ((BufState.setDesc (st.writeFrame f k) k
              { st.desc k with dirty := false }).desc k).valid = true := by
            rw [heq]
            exact hval
          split
          · intro hcon
            cases hcon
          · have hB := BufInv_eraseClear
              (BufState.setDesc (st.writeFrame f k) k
                { st.desc k with dirty := false }) f k
              (by simp [hlen]) hInv1 hkN hown1 hval1
            rw [heq] at hB
            refine flushAux_no_badBuffer ks f _ ?_ ?_ fr db vb rb
            · exact ⟨hN, by simpa using hlen, hplen, hhand⟩
            · exact hB
        · rw [if_neg hd]
          split
          · intro hcon
            cases hcon
          · have hB := BufInv_eraseClear st f k hlen hInv hkN hfeq hval
            refine flushAux_no_badBuffer ks f _ ?_ ?_ fr db vb rb
            · exact ⟨hN, by simpa using hlen, hplen, hhand⟩
            · exact hB
    · rw [if_neg hbeq]
      exact flushAux_no_badBuffer ks f st ⟨hN, hlen, hplen, hhand⟩ hInv fr db vb rb

/-- C9: in every state satisfying the §3 descriptor/index invariants,
the bad-buffer branch of `flushFile` (an invalid frame still
attributed to the target file) is unreachable: `flushFile` never
raises the bad-buffer condition. -/
theorem flushFile_no_badBuffer (f : FileId) (st : BufState)
    (hWF : WF st) (hInv : BufInv st) (fr : Nat) (db vb rb : Bool) :
    (BufMgr.flushFile f st).1 ≠ .error (.badBuffer fr db vb rb) :=
  flushAux_no_badBuffer (List.range st.numBufs) f st hWF hInv fr db vb rb

/-- Witness for C9 at `stFlush` (whose frame 1 is pinned): the failure
raised is the page-pinned condition, never bad-buffer. -/
theorem flushFile_no_badBuffer_witness :
    (BufMgr.flushFile 7 stFlush).1 ≠ .error (.badBuffer 1 false false false) :=
  flushFile_no_badBuffer 7 stFlush (by decide) (by decide) 1 false false false

/-- One `flushFile` scan step on a frame owned by the file, unpinned,
valid and dirty: write back, clear the dirty bit, remove the index
entry, `Clear()` the descriptor, continue with the rest. -/
theorem flushAux_step_dirty (f : FileId) (j : Nat) (ks : List Nat)
    (st : BufState)
    (hfeq : (st.desc j).file = some f)
    (hpin0 : (st.desc j).pinCnt = 0)
    (hval : (st.desc j).valid = true)
    (hlook : hashLookup st.hashTable f ((st.desc j).pageNo) = some j)
    (hd : (st.desc j).dirty = true) :
    BufMgr.flushAux f (j :: ks) st
      = BufMgr.flushAux f ks
          (BufState.setDesc
            (BufState.mk st.numBufs
              (st.bufDescTable.set j { st.desc j with dirty := false })
              st.bufPool
              (hashErase st.hashTable f ((st.desc j).pageNo))
              st.clockHand
              (st.fs.writePage f (st.pool j))
              (st.log ++ [IOEvent.write f (st.pool j).page_number (st.pool j)]))
            j ((st.desc j).descClear)) := by
  simp only [BufMgr.flushAux]
  rw [if_pos (by simp [hfeq]), if_neg (by simp [hpin0]), if_neg (by simp [hval]),
    if_pos hd]
  simp only [hashTable_setDesc, hashTable_writeFrame]
  rw [hlook]
  rfl

/-- One `flushFile` scan step on a frame owned by the file, unpinned,
valid and clean: remove the index entry, `Clear()` the descriptor,
continue with the rest. -/
theorem flushAux_step_clean (f : FileId) (j : Nat) (ks : List Nat)
    (st : BufState)
    (hfeq : (st.desc j).file = some f)
    (hpin0 : (st.desc j).pinCnt = 0)
    (hval : (st.desc j).valid = true)
    (hlook : hashLookup st.hashTable f ((st.desc j).pageNo) = some j)
    (hd : (st.desc j).dirty = false) :
    BufMgr.flushAux f (j :: ks) st
      = BufMgr.flushAux f ks
          (BufState.setDesc
            (BufState.mk st.numBufs st.bufDescTable st.bufPool
              (hashErase st.hashTable f ((st.desc j).pageNo))
              st.clockHand st.fs st.log)
            j ((st.desc j).descClear)) := by
  simp only [BufMgr.flushAux]
  rw [if_pos (by simp [hfeq]), if_neg (by simp [hpin0]), if_neg (by simp [hval]),
    if_neg (by simp [hd])]
  rw [hlook]

/-- One `flushFile` scan step on a frame not owned by the file: skip. -/
theorem flushAux_step_skip (f : FileId) (j : Nat) (ks : List Nat)
    (st : BufState)
    (hne : (st.desc j).file ≠ some f) :
    BufMgr.flushAux f (j :: ks) st = BufMgr.flushAux f ks st := by
  simp only [BufMgr.flushAux]
  rw [if_neg (by simp [hne])]

/-- `flushFile`, scanning `ks1 ++ k :: ks2` with every file-owned
frame in `ks1` unpinned and `k` owned and pinned, flushes the frames
of `ks1`, then aborts at `k` with `PagePinnedException`: the flushed
frames keep their flushed state, frames outside `ks1` are untouched,
and the pool is unchanged. -/
theorem flushAux_pinned_abort : ∀ (ks1 ks2 : List Nat) (f : FileId)
    (st : BufState) (k : Nat),
    WF st → BufInv st → ks1.Nodup → k ∉ ks1 →
    (st.desc k).file = some f → (st.desc k).pinCnt > 0 →
    (∀ j ∈ ks1, (st.desc j).file = some f → (st.desc j).pinCnt = 0) →
    ∃ st', BufMgr.flushAux f (ks1 ++ k :: ks2) st
        = (.error (.pagePinned f ((st.desc k).pageNo) k), st') ∧
      (∀ j ∈ ks1, (st.desc j).file = some f →
        st'.desc j = (st.desc j).descClear ∧
        hashLookup st'.hashTable f ((st.desc j).pageNo) = none ∧
        ((st.desc j).dirty = true →
          IOEvent.write f (st.pool j).page_number (st.pool j) ∈ st'.log)) ∧
      (∀ j, j ∉ ks1 → st'.desc j = st.desc j) ∧
      st'.bufPool = st.bufPool
  | [], ks2, f, st, k, _, _, _, _, hown, hpin, _ => by
    refine ⟨st, ?_, fun i hi => absurd hi (List.not_mem_nil i),
      fun i _ => rfl, rfl⟩
    simp only [List.nil_append, BufMgr.flushAux]
    rw [if_pos (by simp [hown]), if_pos hpin]
  | j :: ks1, ks2, f, st, k, hWF, hInv, hnd, hkmem, hown, hpin, hunp => by
    obtain ⟨hN, hlen, hplen, hhand⟩ := hWF
    have hjks1 : j ∉ ks1 := (List.nodup_cons.mp hnd).1
    have hnd1 : ks1.Nodup := (List.nodup_cons.mp hnd).2
    have hkj : k ≠ j := fun hc => hkmem (by rw [hc]; exact List.mem_cons_self _ _)
    have hkks1 : k ∉ ks1 := fun hc => hkmem (List.mem_cons_of_mem _ hc)
    simp only [List.cons_append]
    by_cases hfcase : (st.desc j).file = some f
    · have hpin0 : (st.desc j).pinCnt = 0 :=
        hunp j (List.mem_cons_self _ _) hfcase
      have hjlen : j < st.bufDescTable.length := by
        by_contra hcon
        have hdef : st.desc j = default := by
          simp [BufState.desc, List.getD_eq_getElem?_getD,
            List.getElem?_eq_none (Nat.le_of_not_lt hcon)]
        rw [hdef] at hfcase
        cases hfcase
      have hjN : j < st.numBufs := by rw [← hlen]; exact hjlen
      have hval : (st.desc j).valid = true := by
        by_contra hcon
        rw [Bool.not_eq_true] at hcon
        have hnone := (hInv.1 j hjN hcon).2.2
        rw [hfcase] at hnone
        cases hnone
      have hlook : hashLookup st.hashTable f ((st.desc j).pageNo) = some j := by
        have h2 := (hInv.2.2.1 j hjN hval).2
        rw [hfcase] at h2
        simpa using h2
      by_cases hd : (st.desc j).dirty
      · rw [flushAux_step_dirty f j (ks1 ++ k :: ks2) st hfcase hpin0 hval hlook hd]
        set StB := BufState.setDesc
            (BufState.mk st.numBufs
              (st.bufDescTable.set j { st.desc j with dirty := false })
              st.bufPool
              (hashErase st.hashTable f ((st.desc j).pageNo))
              st.clockHand
              (st.fs.writePage f (st.pool j))
              (st.log ++ [IOEvent.write f (st.pool j).page_number (st.pool j)]))
            j ((st.desc j).descClear) with hStB
        have hO : ∀ i, i ≠ j → StB.desc i = st.desc i := by
          intro i hi
          rw [hStB]
          rw [desc_setDesc_ne _ _ _ _ (fun hc => hi hc.symm)]
          simp [BufState.desc, List.getD_eq_getElem?_getD,
            List.getElem?_set_ne (fun hc => hi hc.symm)]
        have hJ : StB.desc j = (st.desc j).descClear := by
          rw [hStB]
          exact desc_setDesc_self _ _ _ (by simpa using hjlen)
        have hpool : ∀ i, StB.pool i = st.pool i := by
          intro i
          rw [hStB]
          rfl
        have hPool : StB.bufPool = st.bufPool := by
          rw [hStB]
          rfl
        have hHashnone : hashLookup StB.hashTable f ((st.desc j).pageNo) = none := by
          rw [hStB]
          exact hashLookup_erase_self _ _ _
        have hLogB : IOEvent.write f (st.pool j).page_number (st.pool j)
            ∈ StB.log := by
          rw [hStB]
          exact List.mem_append_right _ (by simp)
        have hWF2 : WF StB := by
          rw [hStB]
          exact ⟨hN, by simpa using hlen, hplen, hhand⟩
        have hInv2 : BufInv StB := by
          rw [hStB]
          have heq := desc_setDesc_self (st.writeFrame f j) j
            { st.desc j with dirty := false } hjlen
          have hInv1 : BufInv (BufState.setDesc (st.writeFrame f j) j
              { st.desc j with dirty := false }) := by
            refine BufInv_setDesc_congr (st.writeFrame f j) j _ hInv rfl rfl rfl ?_
            intro hcon
            have hcon' : (st.desc j).valid = false := hcon
            rw [hval] at hcon'
            cases hcon'
          have hown1 : ((BufState.setDesc (st.writeFrame f j) j
              { st.desc j with dirty := false }).desc j).file = some f := by
            rw [heq]
            exact hfcase
          have hval1 : ((BufState.setDesc (st.writeFrame f j) j
              { st.desc j with dirty := false }).desc j).valid = true := by
            rw [heq]
            exact hval
          have hB := BufInv_eraseClear
            (BufState.setDesc (st.writeFrame f j) j
              { st.desc j with dirty := false }) f j
            (by simpa using hlen) hInv1 hjN hown1 hval1
          rw [heq] at hB
          exact hB
        have hK1 : (StB.desc k).file = some f := by
          rw [hO k hkj]
          exact hown
        have hK2 : (StB.desc k).pinCnt > 0 := by
          rw [hO k hkj]
          exact hpin
        have hU : ∀ i ∈ ks1, (StB.desc i).file = some f →
            (StB.desc i).pinCnt = 0 := by
          intro i hi hfi
          have hij : i ≠ j := fun hc => hjks1 (hc ▸ hi)
          rw [hO i hij] at hfi ⊢
          exact hunp i (List.mem_cons_of_mem _ hi) hfi
        obtain ⟨st', ih1, ih2, ih3, ih4⟩ :=
          flushAux_pinned_abort ks1 ks2 f StB k hWF2 hInv2 hnd1 hkks1 hK1 hK2 hU
        rw [hO k hkj] at ih1
        obtain ⟨w1, w2, w3, w4, w5, ⟨t, ht⟩, w7⟩ :=
          flushAux_frames (ks1 ++ k :: ks2) f StB
        have hsnd := congrArg Prod.snd ih1
        rw [hsnd] at ht w7
        refine ⟨st', ih1, ?_, ?_, ?_⟩
        · intro j2 hj2 hf2
          rcases List.mem_cons.mp hj2 with hj2e | hj2m
          · subst hj2e
            refine ⟨?_, ?_, ?_⟩
            · rw [ih3 j2 hjks1, hJ]
            · exact w7 f ((st.desc j2).pageNo) hHashnone
            · intro _
              rw [ht]
              exact List.mem_append_left _ hLogB
          · have hne : j2 ≠ j := fun hc => hjks1 (hc ▸ hj2m)
            have hf2' : (StB.desc j2).file = some f := by
              rw [hO j2 hne]
              exact hf2
            obtain ⟨e1, e2, e3⟩ := ih2 j2 hj2m hf2'
            rw [hO j2 hne] at e1 e2
            rw [hpool j2] at e3
            exact ⟨e1, e2, fun hdj => e3 (by rw [hO j2 hne]; exact hdj)⟩
        · intro j2 hj2
          have hne : j2 ≠ j := fun hc => hj2 (by rw [hc]; exact List.mem_cons_self _ _)
          have hnm : j2 ∉ ks1 := fun hc => hj2 (List.mem_cons_of_mem _ hc)
          rw [ih3 j2 hnm]
          exact hO j2 hne
        · rw [ih4]
          exact hPool
      · rw [Bool.not_eq_true] at hd
        rw [flushAux_step_clean f j (ks1 ++ k :: ks2) st hfcase hpin0 hval hlook hd]
        set StB := BufState.setDesc
            (BufState.mk st.numBufs st.bufDescTable st.bufPool
              (hashErase st.hashTable f ((st.desc j).pageNo))
              st.clockHand st.fs st.log)
            j ((st.desc j).descClear) with hStB
        have hO : ∀ i, i ≠ j → StB.desc i = st.desc i := by
          intro i hi
          rw [hStB]
          rw [desc_setDesc_ne _ _ _ _ (fun hc => hi hc.symm)]
          rfl
        have hJ : StB.desc j = (st.desc j).descClear := by
          rw [hStB]
          exact desc_setDesc_self _ _ _ (by simpa using hjlen)
        have hpool : ∀ i, StB.pool i = st.pool i := by
          intro i
          rw [hStB]
          rfl
        have hPool : StB.bufPool = st.bufPool := by
          rw [hStB]
          rfl
        have hHashnone : hashLookup StB.hashTable f ((st.desc j).pageNo) = none := by
          rw [hStB]
          exact hashLookup_erase_self _ _ _
        have hWF2 : WF StB := by
          rw [hStB]
          exact ⟨hN, by simpa using hlen, hplen, hhand⟩
        have hInv2 : BufInv StB := by
          rw [hStB]
          exact BufInv_eraseClear st f j hlen hInv hjN hfcase hval
        have hK1 : (StB.desc k).file = some f := by
          rw [hO k hkj]
          exact hown
        have hK2 : (StB.desc k).pinCnt > 0 := by
          rw [hO k hkj]
          exact hpin
        have hU : ∀ i ∈ ks1, (StB.desc i).file = some f →
            (StB.desc i).pinCnt = 0 := by
          intro i hi hfi
          have hij : i ≠ j := fun hc => hjks1 (hc ▸ hi)
          rw [hO i hij] at hfi ⊢
          exact hunp i (List.mem_cons_of_mem _ hi) hfi
        obtain ⟨st', ih1, ih2, ih3, ih4⟩ :=
          flushAux_pinned_abort ks1 ks2 f StB k hWF2 hInv2 hnd1 hkks1 hK1 hK2 hU
        rw [hO k hkj] at ih1
        obtain ⟨w1, w2, w3, w4, w5, ⟨t, ht⟩, w7⟩ :=
          flushAux_frames (ks1 ++ k :: ks2) f StB
        have hsnd := congrArg Prod.snd ih1
        rw [hsnd] at ht w7
        refine ⟨st', ih1, ?_, ?_, ?_⟩
        · intro j2 hj2 hf2
          rcases List.mem_cons.mp hj2 with hj2e | hj2m
          · subst hj2e
            refine ⟨?_, ?_, ?_⟩
            · rw [ih3 j2 hjks1, hJ]
            · exact w7 f ((st.desc j2).pageNo) hHashnone
            · intro hdj
              rw [hd] at hdj
              cases hdj
          · have hne : j2 ≠ j := fun hc => hjks1 (hc ▸ hj2m)
            have hf2' : (StB.desc j2).file = some f := by
              rw [hO j2 hne]
              exact hf2
            obtain ⟨e1, e2, e3⟩ := ih2 j2 hj2m hf2'
            rw [hO j2 hne] at e1 e2
            rw [hpool j2] at e3
            exact ⟨e1, e2, fun hdj => e3 (by rw [hO j2 hne]; exact hdj)⟩
        · intro j2 hj2
          have hne : j2 ≠ j := fun hc => hj2 (by rw [hc]; exact List.mem_cons_self _ _)
          have hnm : j2 ∉ ks1 := fun hc => hj2 (List.mem_cons_of_mem _ hc)
          rw [ih3 j2 hnm]
          exact hO j2 hne
        · rw [ih4]
          exact hPool
    · rw [flushAux_step_skip f j (ks1 ++ k :: ks2) st hfcase]
      obtain ⟨st', ih1, ih2, ih3, ih4⟩ :=
        flushAux_pinned_abort ks1 ks2 f st k ⟨hN, hlen, hplen, hhand⟩ hInv hnd1
          hkks1 hown hpin
          (fun i hi hfi => hunp i (List.mem_cons_of_mem _ hi) hfi)
      refine ⟨st', ih1, ?_, ?_, ih4⟩
      · intro j2 hj2 hf2
        rcases List.mem_cons.mp hj2 with hj2e | hj2m
        · subst hj2e
          exact absurd hf2 hfcase
        · exact ih2 j2 hj2m hf2
      · intro j2 hj2
        exact ih3 j2 (fun hc => hj2 (List.mem_cons_of_mem _ hc))

/-- C6: `flushFile` scans the frames owned by the file in ascending
frame-id order; at the first owned frame `k` with `pinCount > 0` it
fails with the page-pinned condition naming the file, the page and the
frame and aborts the remaining scan, while every owned frame before
`k` remains in its flushed state — dirty content written back, dirty
bit cleared, index entry removed, descriptor cleared — even though the
call as a whole fails; frames from `k` on are untouched. -/
theorem flushFile_pinned_abort (f : FileId) (st : BufState) (k : Nat)
    (hWF : WF st) (hInv : BufInv st)
    (hk : k < st.numBufs)
    (hown : (st.desc k).file = some f)
    (hpin : (st.desc k).pinCnt > 0)
    (hfirst : ∀ j, j < k → (st.desc j).file = some f → (st.desc j).pinCnt = 0) :
    ∃ st', BufMgr.flushFile f st
        = (.error (.pagePinned f ((st.desc k).pageNo) k), st') ∧
      (∀ j, j < k → (st.desc j).file = some f →
        st'.desc j = (st.desc j).descClear ∧
        hashLookup st'.hashTable f ((st.desc j).pageNo) = none ∧
        ((st.desc j).dirty = true →
          IOEvent.write f (st.pool j).page_number (st.pool j) ∈ st'.log)) ∧
      (∀ j, k ≤ j → st'.desc j = st.desc j) ∧
      st'.bufPool = st.bufPool := by
  have hsplit : List.range st.numBufs
      = List.range k ++ k :: List.range' (k + 1) (st.numBufs - k - 1) := by
    have h1 : st.numBufs = ((st.numBufs - k - 1) + 1) + k := by omega
    rw [List.range_eq_range']
    conv_lhs => rw [h1]
    rw [← List.range'_append_1 0 k ((st.numBufs - k - 1) + 1), Nat.zero_add,
      List.range'_succ, ← List.range_eq_range']
  obtain ⟨st', h1, h2, h3, h4⟩ :=
    flushAux_pinned_abort (List.range k) (List.range' (k + 1) (st.numBufs - k - 1))
      f st k hWF hInv (List.nodup_range k) (by simp) hown hpin
      (fun j hj => hfirst j (List.mem_range.mp hj))
  refine ⟨st', ?_, ?_, ?_, h4⟩
  · show BufMgr.flushAux f (List.range st.numBufs) st = _
    rw [hsplit]
    exact h1
  · exact fun j hj => h2 j (List.mem_range.mpr hj)
  · exact fun j hj => h3 j (fun hc => Nat.not_lt.mpr hj (List.mem_range.mp hc))

/-- Witness for C6 at `stFlush`: file 7 owns frames 0 (dirty,
unpinned), 1 (pinned) and 2; `flushFile 7` flushes frame 0, aborts on
frame 1 with the page-pinned condition, and leaves frames 1 and 2
untouched. -/
theorem flushFile_pinned_abort_witness :
    ∃ st', BufMgr.flushFile 7 stFlush
        = (.error (.pagePinned 7 ((stFlush.desc 1).pageNo) 1), st') ∧
      (∀ j, j < 1 → (stFlush.desc j).file = some 7 →
        st'.desc j = (stFlush.desc j).descClear ∧
        hashLookup st'.hashTable 7 ((stFlush.desc j).pageNo) = none ∧
        ((stFlush.desc j).dirty = true →
          IOEvent.write 7 (stFlush.pool j).page_number (stFlush.pool j)
            ∈ st'.log)) ∧
      (∀ j, 1 ≤ j → st'.desc j = stFlush.desc j) ∧
      st'.bufPool = stFlush.bufPool :=
  flushFile_pinned_abort 7 stFlush 1 (by decide) (by decide) (by decide)
    (by decide) (by decide)
    (fun j hj _ => by
      have hj0 : j = 0 := Nat.lt_one_iff.mp hj
      rw [hj0]
      decide)

/-- C7: the §3 invariant — an invalid frame is unpinned, clean and
unowned (stated here with the index-consistency conditions that make
it inductive) — holds in the constructor's initial state and is
preserved by each of the five public operations (fetch, unpin,
allocate, dispose, flush) from any state satisfying it. -/
theorem invariant_initial_and_preserved (bufs : Nat) (fs0 : FileSys)
    (f : FileId) (p : PageId) (d : Bool) (st : BufState)
    (hWF : WF st) (hInv : BufInv st) :
    BufInv (BufMgr.mkBufMgr bufs fs0) ∧
    BufInv (BufMgr.readPage f p st).2 ∧
    BufInv (BufMgr.unPinPage f p d st).2 ∧
    BufInv (BufMgr.allocPage f st).2 ∧
    BufInv (BufMgr.disposePage f p st).2 ∧
    BufInv (BufMgr.flushFile f st).2 := by
  refine ⟨?_, (readPage_inv f p st hWF hInv).1,
    (unPinPage_inv f p d st hWF hInv).1,
    (allocPage_inv f st hWF hInv).1,
    (disposePage_inv f p st hWF hInv).1,
    (flushAux_inv (List.range st.numBufs) f st hWF hInv).1⟩
  have hdesc : ∀ i, i < bufs → (BufMgr.mkBufMgr bufs fs0).desc i
      = { frameNo := i, file := none, pageNo := 0, pinCnt := 0,
          dirty := false, valid := false, refbit := false } := by
    intro i hi
    simp [BufMgr.mkBufMgr, BufState.desc, List.getD_eq_getElem?_getD,
      List.getElem?_map, List.getElem?_range hi]
  refine ⟨?_, ?_, ?_, ?_⟩
  · intro i hi _
    rw [hdesc i hi]
    exact ⟨rfl, rfl, rfl⟩
  · intro e he
    exact absurd he (List.not_mem_nil e)
  · intro i hi hval
    rw [hdesc i hi] at hval
    cases hval
  · simp [BufMgr.mkBufMgr]

/-- Witness for C7 at a concrete pool and the concrete pinned state
`stPinned`. -/
theorem invariant_initial_and_preserved_witness :
    BufInv (BufMgr.mkBufMgr 2 ⟨[]⟩) ∧
    BufInv (BufMgr.readPage 7 3 stPinned).2 ∧
    BufInv (BufMgr.unPinPage 7 3 true stPinned).2 ∧
    BufInv (BufMgr.allocPage 7 stPinned).2 ∧
    BufInv (BufMgr.disposePage 7 3 stPinned).2 ∧
    BufInv (BufMgr.flushFile 7 stPinned).2 :=
  invariant_initial_and_preserved 2 ⟨[]⟩ 7 3 true stPinned
    (by decide) (by decide)

/-- The `flushFile` scan never touches a pinned frame's descriptor: a
file-owned pinned frame aborts the scan before being cleared, and
every frame the scan clears had `pinCount = 0`. -/
theorem flushAux_pinned_frame : ∀ (ks : List Nat) (f : FileId) (st : BufState)
    (i : Nat), WF st → BufInv st → 0 < (st.desc i).pinCnt →
    (BufMgr.flushAux f ks st).2.desc i = st.desc i
  | [], _, _, _, _, _, _ => rfl
  | k :: ks, f, st, i, hWF, hInv, hpin => by
    obtain ⟨hN, hlen, hplen, hhand⟩ := hWF
    by_cases hfcase : (st.desc k).file = some f
    · by_cases hpk : (st.desc k).pinCnt > 0
      · have hout : BufMgr.flushAux f (k :: ks) st
            = (.error (.pagePinned f ((st.desc k).pageNo) k), st) := by
          simp only [BufMgr.flushAux]
          rw [if_pos (by simp [hfcase]), if_pos hpk]
        rw [hout]
      · have hki : k ≠ i := fun hc => hpk (by rw [hc]; exact hpin)
        have hpk0 : (st.desc k).pinCnt = 0 := Nat.eq_zero_of_not_pos hpk
        have hklen : k < st.bufDescTable.length := by
          by_contra hcon
          have hdef : st.desc k = default := by
            simp [BufState.desc, List.getD_eq_getElem?_getD,
              List.getElem?_eq_none (Nat.le_of_not_lt hcon)]
          rw [hdef] at hfcase
          cases hfcase
        have hkN : k < st.numBufs := by rw [← hlen]; exact hklen
        have hval : (st.desc k).valid = true := by
          by_contra hcon
          rw [Bool.not_eq_true] at hcon
          have hnone := (hInv.1 k hkN hcon).2.2
          rw [hfcase] at hnone
          cases hnone
        have hlook : hashLookup st.hashTable f ((st.desc k).pageNo) = some k := by
          have h2 := (hInv.2.2.1 k hkN hval).2
          rw [hfcase] at h2
          simpa using h2
        by_cases hd : (st.desc k).dirty
        · rw [flushAux_step_dirty f k ks st hfcase hpk0 hval hlook hd]
          set StB := BufState.setDesc
              (BufState.mk st.numBufs
                (st.bufDescTable.set k { st.desc k with dirty := false })
                st.bufPool
                (hashErase st.hashTable f ((st.desc k).pageNo))
                st.clockHand
                (st.fs.writePage f (st.pool k))
                (st.log ++ [IOEvent.write f (st.pool k).page_number (st.pool k)]))
              k ((st.desc k).descClear) with hStB
          have hO : ∀ m, m ≠ k → StB.desc m = st.desc m := by
            intro m hm
            rw [hStB]
            rw [desc_setDesc_ne _ _ _ _ (fun hc => hm hc.symm)]
            simp [BufState.desc, List.getD_eq_getElem?_getD,
              List.getElem?_set_ne (fun hc => hm hc.symm)]
          have hWF2 : WF StB := by
            rw [hStB]
            exact ⟨hN, by simpa using hlen, hplen, hhand⟩
          have hInv2 : BufInv StB := by
            rw [hStB]
            have heq := desc_setDesc_self (st.writeFrame f k) k
              { st.desc k with dirty := false } hklen
            have hInv1 : BufInv (BufState.setDesc (st.writeFrame f k) k
                { st.desc k with dirty := false }) := by
              refine BufInv_setDesc_congr (st.writeFrame f k) k _ hInv rfl rfl rfl ?_
              intro hcon
              have hcon' : (st.desc k).valid = false := hcon
              rw [hval] at hcon'
              cases hcon'
            have hown1 : ((BufState.setDesc (st.writeFrame f k) k
                { st.desc k with dirty := false }).desc k).file = some f := by
              rw [heq]
              exact hfcase
            have hval1 : ((BufState.setDesc (st.writeFrame f k) k
                { st.desc k with dirty := false }).desc k).valid = true := by
              rw [heq]
              exact hval
            have hB := BufInv_eraseClear
              (BufState.setDesc (st.writeFrame f k) k
                { st.desc k with dirty := false }) f k
              (by simpa using hlen) hInv1 hkN hown1 hval1
            rw [heq] at hB
            exact hB
          have hpin2 : 0 < (StB.desc i).pinCnt := by
            rw [hO i (fun hc => hki hc.symm)]
            exact hpin
          rw [flushAux_pinned_frame ks f StB i hWF2 hInv2 hpin2]
          exact hO i (fun hc => hki hc.symm)
        · rw [Bool.not_eq_true] at hd
          rw [flushAux_step_clean f k ks st hfcase hpk0 hval hlook hd]
          set StB := BufState.setDesc
              (BufState.mk st.numBufs st.bufDescTable st.bufPool
                (hashErase st.hashTable f ((st.desc k).pageNo))
                st.clockHand st.fs st.log)
              k ((st.desc k).descClear) with hStB
          have hO : ∀ m, m ≠ k → StB.desc m = st.desc m := by
            intro m hm
            rw [hStB]
            rw [desc_setDesc_ne _ _ _ _ (fun hc => hm hc.symm)]
            rfl
          have hWF2 : WF StB := by
            rw [hStB]
            exact ⟨hN, by simpa using hlen, hplen, hhand⟩
          have hInv2 : BufInv StB := by
            rw [hStB]
            exact BufInv_eraseClear st f k hlen hInv hkN hfcase hval
          have hpin2 : 0 < (StB.desc i).pinCnt := by
            rw [hO i (fun hc => hki hc.symm)]
            exact hpin
          rw [flushAux_pinned_frame ks f StB i hWF2 hInv2 hpin2]
          exact hO i (fun hc => hki hc.symm)
    · rw [flushAux_step_skip f k ks st hfcase]
      exact flushAux_pinned_frame ks f st i ⟨hN, hlen, hplen, hhand⟩ hInv hpin

/-- A fetch never changes a pinned frame's identity (owner, page,
validity) or its buffered content: a hit touches only `pinCnt` and
`refbit`, and a miss evicts an unpinned victim. -/
theorem readPage_pinned_frame (f : FileId) (p : PageId) (st : BufState)
    (i : Nat) (hWF : WF st) (hInv : BufInv st)
    (hpin : 0 < (st.desc i).pinCnt) :
    ((BufMgr.readPage f p st).2.desc i).file = (st.desc i).file ∧
    ((BufMgr.readPage f p st).2.desc i).pageNo = (st.desc i).pageNo ∧
    ((BufMgr.readPage f p st).2.desc i).valid = (st.desc i).valid ∧
    (BufMgr.readPage f p st).2.pool i = st.pool i := by
  obtain ⟨hN, hlen, hplen, hhand⟩ := hWF
  cases hhit : hashLookup st.hashTable f p with
  | some id =>
    have hout : BufMgr.readPage f p st =
        (.ok id, st.setDesc id { st.desc id with
          pinCnt := (st.desc id).pinCnt + 1, refbit := true }) := by
      unfold BufMgr.readPage
      rw [hhit]
    rw [hout]
    have hidN : id < st.numBufs :=
      (hInv.2.1 ((f, p), id) (hashLookup_some_mem _ _ _ _ hhit)).1
    by_cases hii : id = i
    · subst hii
      rw [desc_setDesc_self _ _ _ (by rw [hlen]; exact hidN)]
      exact ⟨rfl, rfl, rfl, rfl⟩
    · rw [desc_setDesc_ne _ _ _ _ hii]
      exact ⟨rfl, rfl, rfl, rfl⟩
  | none =>
    cases hread : st.fs.readPage f p with
    | none =>
      have hout : BufMgr.readPage f p st = (.error (.invalidPage f p), st) := by
        unfold BufMgr.readPage
        rw [hhit, hread]
      rw [hout]
      exact ⟨rfl, rfl, rfl, rfl⟩
    | some pg =>
      have hWF0 : WF { st with log := st.log ++ [IOEvent.read f p] } :=
        ⟨hN, hlen, hplen, hhand⟩
      have hInv0 : BufInv { st with log := st.log ++ [IOEvent.read f p] } :=
        hInv
      obtain ⟨m1, m2, m3, m4, m5, m6, m7, m8, m9⟩ :=
        allocBuf_inv { st with log := st.log ++ [IOEvent.read f p] } hWF0 hInv0
      cases halloc : BufMgr.allocBuf
          { st with log := st.log ++ [IOEvent.read f p] } with
      | mk r st2 =>
        rw [halloc] at m5 m6 m8 m9
        have hdesc2 := m9 i hpin
        have hdi : (st2.desc i).file = (st.desc i).file ∧
            (st2.desc i).pageNo = (st.desc i).pageNo ∧
            (st2.desc i).valid = (st.desc i).valid := by
          rcases hdesc2 with h | h <;> rw [h] <;> exact ⟨rfl, rfl, rfl⟩
        have hpool2 : st2.pool i = st.pool i := by
          simp only [BufState.pool]
          rw [m5]
        cases r with
        | error e =>
          have hout : BufMgr.readPage f p st = (.error e, st2) := by
            unfold BufMgr.readPage
            rw [hhit, hread]
            simp only [halloc]
          rw [hout]
          exact ⟨hdi.1, hdi.2.1, hdi.2.2, hpool2⟩
        | ok id =>
          obtain ⟨hvinv, hvN, hvpin⟩ := m8 id rfl
          have hii : id ≠ i := by
            intro hc
            rw [hc] at hvpin
            have hvpin' : (st.desc i).pinCnt = 0 := hvpin
            omega
          have hmiss3 : hashLookup st2.hashTable f p = none := m6 f p hhit
          have hout : BufMgr.readPage f p st =
              (.ok id,
                BufState.setDesc
                  { BufState.setPool st2 id pg with
                    hashTable := ((f, p), id) :: st2.hashTable }
                  id ((st2.desc id).descSet f p)) := by
            unfold BufMgr.readPage
            rw [hhit, hread]
            simp only [halloc]
            rw [if_neg (by simp [hmiss3])]
            exact rfl
          have hfin : (BufState.setDesc
              { BufState.setPool st2 id pg with
                hashTable := ((f, p), id) :: st2.hashTable }
              id ((st2.desc id).descSet f p)).desc i = st2.desc i := by
            rw [desc_setDesc_ne _ _ _ _ hii]
            rfl
          have hfinpool : (BufState.setDesc
              { BufState.setPool st2 id pg with
                hashTable := ((f, p), id) :: st2.hashTable }
              id ((st2.desc id).descSet f p)).pool i = st2.pool i := by
            show (BufState.setPool st2 id pg).pool i = st2.pool i
            exact pool_setPool_ne st2 id i pg hii
          rw [hout]
          refine ⟨?_, ?_, ?_, ?_⟩
          · rw [hfin]
            exact hdi.1
          · rw [hfin]
            exact hdi.2.1
          · rw [hfin]
            exact hdi.2.2
          · rw [hfinpool, hpool2]

/-- An unpin addressed to a page held in a different frame leaves the
frame entirely untouched. -/
theorem unPinPage_pinned_frame (f : FileId) (p : PageId) (d : Bool)
    (st : BufState) (i : Nat)
    (hne : hashLookup st.hashTable f p ≠ some i) :
    (BufMgr.unPinPage f p d st).2.desc i = st.desc i ∧
    (BufMgr.unPinPage f p d st).2.pool i = st.pool i := by
  cases hhit : hashLookup st.hashTable f p with
  | none =>
    have hout : BufMgr.unPinPage f p d st = (.ok (), st) := by
      unfold BufMgr.unPinPage
      rw [hhit]
    rw [hout]
    exact ⟨rfl, rfl⟩
  | some id =>
    have hii : id ≠ i := fun hc => hne (by rw [hhit, hc])
    by_cases hz : (st.desc id).pinCnt = 0
    · have hout : BufMgr.unPinPage f p d st =
          (.error (.pageNotPinned f p id), st) := by
        unfold BufMgr.unPinPage
        rw [hhit]
        simp [hz]
      rw [hout]
      exact ⟨rfl, rfl⟩
    · have hout : BufMgr.unPinPage f p d st =
          (if d then
            (.ok (), (st.setDesc id
                { st.desc id with pinCnt := (st.desc id).pinCnt - 1 }).setDesc id
              { (st.setDesc id
                  { st.desc id with pinCnt := (st.desc id).pinCnt - 1 }).desc id
                with dirty := true })
          else (.ok (), st.setDesc id
            { st.desc id with pinCnt := (st.desc id).pinCnt - 1 })) := by
        unfold BufMgr.unPinPage
        rw [hhit]
        simp [hz]
      rw [hout]
      cases d with
      | false =>
        rw [if_neg (by simp)]
        exact ⟨desc_setDesc_ne _ _ _ _ hii, rfl⟩
      | true =>
        rw [if_pos rfl]
        refine ⟨?_, rfl⟩
        rw [desc_setDesc_ne _ _ _ _ hii]
        exact desc_setDesc_ne _ _ _ _ hii

/-- Disposing a page held in a different frame leaves the frame
entirely untouched. -/
theorem disposePage_pinned_frame (f : FileId) (p : PageId)
    (st : BufState) (i : Nat)
    (hne : hashLookup st.hashTable f p ≠ some i) :
    (BufMgr.disposePage f p st).2.desc i = st.desc i ∧
    (BufMgr.disposePage f p st).2.pool i = st.pool i := by
  cases hhit : hashLookup st.hashTable f p with
  | none =>
    have hout : (BufMgr.disposePage f p st).2 =
        { st with fs := st.fs.deletePage f p,
                  log := st.log ++ [.delete f p] } := by
      unfold BufMgr.disposePage
      rw [hhit]
    rw [hout]
    exact ⟨rfl, rfl⟩
  | some id =>
    have hii : id ≠ i := fun hc => hne (by rw [hhit, hc])
    have hout : (BufMgr.disposePage f p st).2 =
        { BufState.setDesc
            { st with hashTable := hashErase st.hashTable f p } id
            ((st.desc id).descClear) with
          fs := st.fs.deletePage f p,
          log := st.log ++ [.delete f p] } := by
      unfold BufMgr.disposePage
      rw [hhit]
      exact rfl
    rw [hout]
    constructor
    · have h1 : ({ BufState.setDesc
          { st with hashTable := hashErase st.hashTable f p } id
          ((st.desc id).descClear) with
          fs := st.fs.deletePage f p,
          log := st.log ++ [.delete f p] } : BufState).desc i
          = (BufState.setDesc
              { st with hashTable := hashErase st.hashTable f p } id
              ((st.desc id).descClear)).desc i := rfl
      rw [h1, desc_setDesc_ne _ _ _ _ hii]
      rfl
    · rfl

/-- An allocate never changes a pinned frame's identity (owner, page,
validity) or its buffered content: the victim it takes is unpinned. -/
theorem allocPage_pinned_frame (f : FileId) (st : BufState)
    (i : Nat) (hWF : WF st) (hInv : BufInv st)
    (hpin : 0 < (st.desc i).pinCnt) :
    ((BufMgr.allocPage f st).2.desc i).file = (st.desc i).file ∧
    ((BufMgr.allocPage f st).2.desc i).pageNo = (st.desc i).pageNo ∧
    ((BufMgr.allocPage f st).2.desc i).valid = (st.desc i).valid ∧
    (BufMgr.allocPage f st).2.pool i = st.pool i := by
  obtain ⟨hN, hlen, hplen, hhand⟩ := hWF
  have hWF0 : WF
      { st with fs := (st.fs.allocatePage f).2,
                log := st.log ++ [IOEvent.allocate f (st.fs.allocatePage f).1] } :=
    ⟨hN, hlen, hplen, hhand⟩
  have hInv0 : BufInv
      { st with fs := (st.fs.allocatePage f).2,
                log := st.log ++ [IOEvent.allocate f (st.fs.allocatePage f).1] } :=
    hInv
  obtain ⟨m1, m2, m3, m4, m5, m6, m7, m8, m9⟩ := allocBuf_inv _ hWF0 hInv0
  cases halloc : BufMgr.allocBuf
      { st with fs := (st.fs.allocatePage f).2,
                log := st.log ++ [IOEvent.allocate f (st.fs.allocatePage f).1] } with
  | mk r st2 =>
    rw [halloc] at m5 m6 m8 m9
    have hdesc2 := m9 i hpin
    have hdi : (st2.desc i).file = (st.desc i).file ∧
        (st2.desc i).pageNo = (st.desc i).pageNo ∧
        (st2.desc i).valid = (st.desc i).valid := by
      rcases hdesc2 with h | h <;> rw [h] <;> exact ⟨rfl, rfl, rfl⟩
    have hpool2 : st2.pool i = st.pool i := by
      simp only [BufState.pool]
      rw [m5]
    cases r with
    | error e =>
      have hout : BufMgr.allocPage f st = (.error e, st2) := by
        unfold BufMgr.allocPage
        simp only [halloc]
      rw [hout]
      exact ⟨hdi.1, hdi.2.1, hdi.2.2, hpool2⟩
    | ok id =>
      obtain ⟨hvinv, hvN, hvpin⟩ := m8 id rfl
      have hii : id ≠ i := by
        intro hc
        rw [hc] at hvpin
        have hvpin' : (st.desc i).pinCnt = 0 := hvpin
        omega
      cases hread : st2.fs.readPage f (st.fs.allocatePage f).1 with
      | none =>
        have hout : BufMgr.allocPage f st =
            (.error (.invalidPage f (st.fs.allocatePage f).1), st2) := by
          unfold BufMgr.allocPage
          simp only [halloc]
          simp only [hread]
        rw [hout]
        exact ⟨hdi.1, hdi.2.1, hdi.2.2, hpool2⟩
      | some pg =>
        cases hlook : hashLookup st2.hashTable f (st.fs.allocatePage f).1 with
        | some w =>
          have hout : BufMgr.allocPage f st = (.error .hashAlreadyPresent,
              BufState.setPool
                { st2 with log := st2.log ++ [IOEvent.read f (st.fs.allocatePage f).1] }
                id pg) := by
            unfold BufMgr.allocPage
            simp only [halloc]
            simp only [hread]
            rw [if_pos (by simp [hlook])]
          rw [hout]
          have hd1 : (BufState.setPool
              { st2 with log := st2.log ++ [IOEvent.read f (st.fs.allocatePage f).1] }
              id pg).desc i = st2.desc i := rfl
          have hp1 : (BufState.setPool
              { st2 with log := st2.log ++ [IOEvent.read f (st.fs.allocatePage f).1] }
              id pg).pool i = st2.pool i := by
            show (BufState.setPool st2 id pg).pool i = st2.pool i
            exact pool_setPool_ne st2 id i pg hii
          rw [hd1, hp1, hpool2]
          exact ⟨hdi.1, hdi.2.1, hdi.2.2, rfl⟩
        | none =>
          have hout : BufMgr.allocPage f st =
              (.ok ((st.fs.allocatePage f).1, id),
                BufState.setDesc
                  { BufState.setPool
                      { st2 with log := st2.log ++ [IOEvent.read f (st.fs.allocatePage f).1] }
                      id pg with
                    hashTable := ((f, (st.fs.allocatePage f).1), id) ::
                      st2.hashTable }
                  id ((st2.desc id).descSet f (st.fs.allocatePage f).1)) := by
            unfold BufMgr.allocPage
            simp only [halloc]
            simp only [hread]
            rw [if_neg (by simp [hlook])]
            exact rfl
          have hfin : (BufState.setDesc
              { BufState.setPool
                  { st2 with log := st2.log ++ [IOEvent.read f (st.fs.allocatePage f).1] }
                  id pg with
                hashTable := ((f, (st.fs.allocatePage f).1), id) ::
                  st2.hashTable }
              id ((st2.desc id).descSet f (st.fs.allocatePage f).1)).desc i
              = st2.desc i := by
            rw [desc_setDesc_ne _ _ _ _ hii]
            rfl
          have hfinpool : (BufState.setDesc
              { BufState.setPool
                  { st2 with log := st2.log ++ [IOEvent.read f (st.fs.allocatePage f).1] }
                  id pg with
                hashTable := ((f, (st.fs.allocatePage f).1), id) ::
                  st2.hashTable }
              id ((st2.desc id).descSet f (st.fs.allocatePage f).1)).pool i
              = st2.pool i := by
            show (BufState.setPool st2 id pg).pool i = st2.pool i
            exact pool_setPool_ne st2 id i pg hii
          rw [hout]
          refine ⟨?_, ?_, ?_, ?_⟩
          · rw [hfin]
            exact hdi.1
          · rw [hfin]
            exact hdi.2.1
          · rw [hfin]
            exact hdi.2.2
          · rw [hfinpool, hpool2]

/-- C8 counterexample: `disposePage` performs no pin check — disposing
page (7, 3) while frame 0 holds it pinned (`pinCount = 2` in
`stPinned`) clears the frame's descriptor, silently discarding its
(file, pageId) identity and its pin bookkeeping. -/
theorem disposePage_pinned_counterexample :
    0 < (stPinned.desc 0).pinCnt ∧
    ((BufMgr.disposePage 7 3 stPinned).2.desc 0).valid = false ∧
    ((BufMgr.disposePage 7 3 stPinned).2.desc 0).file = none ∧
    ((BufMgr.disposePage 7 3 stPinned).2.desc 0).pinCnt = 0 := by
  decide

/-- C8 (amended): a pinned frame is protected by every operation
except a dispose of the very page it holds: victim selection only
returns frames whose pin count was zero; fetch and allocate preserve
the frame's owner, page number, validity and buffered content; a
flush of any file leaves the frame's descriptor and content
untouched; unpin and dispose addressed to a page held in a different
frame leave it untouched.  (`disposePage` of the pinned page itself
clears the frame — see the counterexample.) -/
theorem pinned_frame_protected (st : BufState) (i : Nat)
    (f : FileId) (p : PageId) (d : Bool)
    (hWF : WF st) (hInv : BufInv st)
    (hpin : 0 < (st.desc i).pinCnt) :
    (∀ v, (BufMgr.allocBuf st).1 = .ok v → (st.desc v).pinCnt = 0) ∧
    (((BufMgr.readPage f p st).2.desc i).file = (st.desc i).file ∧
      ((BufMgr.readPage f p st).2.desc i).pageNo = (st.desc i).pageNo ∧
      ((BufMgr.readPage f p st).2.desc i).valid = (st.desc i).valid ∧
      (BufMgr.readPage f p st).2.pool i = st.pool i) ∧
    (hashLookup st.hashTable f p ≠ some i →
      (BufMgr.unPinPage f p d st).2.desc i = st.desc i ∧
      (BufMgr.unPinPage f p d st).2.pool i = st.pool i) ∧
    (((BufMgr.allocPage f st).2.desc i).file = (st.desc i).file ∧
      ((BufMgr.allocPage f st).2.desc i).pageNo = (st.desc i).pageNo ∧
      ((BufMgr.allocPage f st).2.desc i).valid = (st.desc i).valid ∧
      (BufMgr.allocPage f st).2.pool i = st.pool i) ∧
    ((BufMgr.flushFile f st).2.desc i = st.desc i ∧
      (BufMgr.flushFile f st).2.pool i = st.pool i) ∧
    (hashLookup st.hashTable f p ≠ some i →
      (BufMgr.disposePage f p st).2.desc i = st.desc i ∧
      (BufMgr.disposePage f p st).2.pool i = st.pool i) := by
  refine ⟨?_, readPage_pinned_frame f p st i hWF hInv hpin,
    unPinPage_pinned_frame f p d st i,
    allocPage_pinned_frame f st i hWF hInv hpin,
    ⟨?_, ?_⟩,
    disposePage_pinned_frame f p st i⟩
  · obtain ⟨_, _, _, _, _, _, _, m8, _⟩ := allocBuf_inv st hWF hInv
    exact fun v hv => (m8 v hv).2.2
  · exact flushAux_pinned_frame (List.range st.numBufs) f st i hWF hInv hpin
  · obtain ⟨_, i2, _⟩ := flushAux_frames (List.range st.numBufs) f st
    simp only [BufState.pool]
    rw [show (BufMgr.flushFile f st).2.bufPool = st.bufPool from i2]

/-- Witness for C8 (amended) at `stPinned` (frame 0 pinned twice),
with the operations addressed to the non-resident page (9, 5). -/
theorem pinned_frame_protected_witness :
    (∀ v, (BufMgr.allocBuf stPinned).1 = .ok v → (stPinned.desc v).pinCnt = 0) ∧
    (((BufMgr.readPage 9 5 stPinned).2.desc 0).file = (stPinned.desc 0).file ∧
      ((BufMgr.readPage 9 5 stPinned).2.desc 0).pageNo = (stPinned.desc 0).pageNo ∧
      ((BufMgr.readPage 9 5 stPinned).2.desc 0).valid = (stPinned.desc 0).valid ∧
      (BufMgr.readPage 9 5 stPinned).2.pool 0 = stPinned.pool 0) ∧
    (hashLookup stPinned.hashTable 9 5 ≠ some 0 →
      (BufMgr.unPinPage 9 5 false stPinned).2.desc 0 = stPinned.desc 0 ∧
      (BufMgr.unPinPage 9 5 false stPinned).2.pool 0 = stPinned.pool 0) ∧
    (((BufMgr.allocPage 9 stPinned).2.desc 0).file = (stPinned.desc 0).file ∧
      ((BufMgr.allocPage 9 stPinned).2.desc 0).pageNo = (stPinned.desc 0).pageNo ∧
      ((BufMgr.allocPage 9 stPinned).2.desc 0).valid = (stPinned.desc 0).valid ∧
      (BufMgr.allocPage 9 stPinned).2.pool 0 = stPinned.pool 0) ∧
    ((BufMgr.flushFile 9 stPinned).2.desc 0 = stPinned.desc 0 ∧
      (BufMgr.flushFile 9 stPinned).2.pool 0 = stPinned.pool 0) ∧
    (hashLookup stPinned.hashTable 9 5 ≠ some 0 →
      (BufMgr.disposePage 9 5 stPinned).2.desc 0 = stPinned.desc 0 ∧
      (BufMgr.disposePage 9 5 stPinned).2.pool 0 = stPinned.pool 0) :=
  pinned_frame_protected stPinned 0 9 5 false (by decide) (by decide) (by decide)
